/-
  Verification of the ProtectMyImages metadata-stripping engine.

  This file gives a shallow embedding, in Lean 4, of the format-detection
  layer, the CRC-32 checksum primitive, and the five format codecs (JPEG,
  PNG, GIF, WebP, TIFF) of the ProtectMyImages repository, together with
  theorems settling the specification claims about them.

  Conventions of the embedding:
  * A byte buffer is a `List Nat`; every element of a real buffer is < 256
    (Rust `u8`).  Where the source truncates on an integer cast the
    embedding applies the corresponding `% 2^w` explicitly.
  * Fallible functions return `Except String`; the error strings are the
    ones of the source.
  * Source loops whose position strictly increases are embedded with a
    structural fuel parameter; every call site passes `data.length + 1`,
    which is enough fuel because each iteration advances the position by
    at least one and the loop stops once the position reaches the end of
    the buffer.  (The only source loop that can actually diverge is the
    TIFF IFD-chain walk on a cyclic chain; there the Rust code never
    returns, and the embedding returns an error, so the two agree on all
    inputs the code accepts.)
-/
import Mathlib

set_option maxRecDepth 10000

/-- Decidable equality for `Except`, for evaluating the codecs on concrete
inputs. -/
instance {ε α : Type} [DecidableEq ε] [DecidableEq α] : DecidableEq (Except ε α) := fun x y =>
  match x, y with
  | .ok a, .ok b => if h : a = b then .isTrue (by rw [h]) else .isFalse (by simp [h])
  | .error a, .error b => if h : a = b then .isTrue (by rw [h]) else .isFalse (by simp [h])
  | .ok _, .error _ => .isFalse (by simp)
  | .error _, .ok _ => .isFalse (by simp)

/-! ## Byte-level helpers -/

/-- `&data[a..b]` of the Rust source: the bytes from index `a` (inclusive)
to `b` (exclusive). -/
def bslice (l : List Nat) (a b : Nat) : List Nat := (l.drop a).take (b - a)

/-- `u16::from_be_bytes([data[pos], data[pos+1]])`. -/
def readBE16 (data : List Nat) (pos : Nat) : Nat :=
  data.getD pos 0 * 256 + data.getD (pos + 1) 0

/-- `u32::from_be_bytes` of the four bytes at `pos`. -/
def readBE32 (data : List Nat) (pos : Nat) : Nat :=
  data.getD pos 0 * 16777216 + data.getD (pos + 1) 0 * 65536 +
    data.getD (pos + 2) 0 * 256 + data.getD (pos + 3) 0

/-- `u32::from_le_bytes` of the four bytes at `pos`. -/
def readLE32 (data : List Nat) (pos : Nat) : Nat :=
  data.getD pos 0 + data.getD (pos + 1) 0 * 256 +
    data.getD (pos + 2) 0 * 65536 + data.getD (pos + 3) 0 * 16777216

/-- `(v as u16).to_be_bytes()`. -/
def beBytes16 (v : Nat) : List Nat := [v / 256 % 256, v % 256]

/-- `(v as u32).to_be_bytes()`. -/
def beBytes32 (v : Nat) : List Nat :=
  [v / 16777216 % 256, v / 65536 % 256, v / 256 % 256, v % 256]

/-- `(v as u16).to_le_bytes()`. -/
def leBytes16 (v : Nat) : List Nat := [v % 256, v / 256 % 256]

/-- `(v as u32).to_le_bytes()`. -/
def leBytes32 (v : Nat) : List Nat :=
  [v % 256, v / 256 % 256, v / 65536 % 256, v / 16777216 % 256]

/-! ## Format detection (`src/formats/mod.rs`) -/

inductive ImageFormat where
  | Jpeg | Png | Gif | WebP | Tiff
deriving DecidableEq

namespace magic

def JPEG : List Nat := [0xFF, 0xD8, 0xFF]
def PNG : List Nat := [0x89, 0x50, 0x4E, 0x47, 0x0D, 0x0A, 0x1A, 0x0A]
def GIF87A : List Nat := [0x47, 0x49, 0x46, 0x38, 0x37, 0x61]
def GIF89A : List Nat := [0x47, 0x49, 0x46, 0x38, 0x39, 0x61]
def RIFF : List Nat := [0x52, 0x49, 0x46, 0x46]
def WEBP : List Nat := [0x57, 0x45, 0x42, 0x50]
def TIFF_LE : List Nat := [0x49, 0x49, 0x2A, 0x00]
def TIFF_BE : List Nat := [0x4D, 0x4D, 0x00, 0x2A]

end magic

/-- `detect_format` from `src/formats/mod.rs`: magic-byte sniffing. -/
def detect_format (data : List Nat) : Option ImageFormat :=
  if data.length < 12 then none
  else if magic.JPEG.isPrefixOf data then some .Jpeg
  else if magic.PNG.isPrefixOf data then some .Png
  else if magic.GIF87A.isPrefixOf data || magic.GIF89A.isPrefixOf data then some .Gif
  else if magic.RIFF.isPrefixOf data && bslice data 8 12 == magic.WEBP then some .WebP
  else if magic.TIFF_LE.isPrefixOf data || magic.TIFF_BE.isPrefixOf data then some .Tiff
  else none

/-! ## CRC-32 (`src/simd.rs`) -/

namespace crc32

/-- One bit-step of the table generator: shift right, conditionally xor the
ISO-3309 polynomial `0xEDB88320`. -/
def step (crc : Nat) : Nat :=
  if crc % 2 = 1 then (crc / 2) ^^^ 0xEDB88320 else crc / 2

/-- `CRC32_TABLE[i]`: eight bit-steps applied to `i` (from
`generate_crc32_table`). -/
def table (i : Nat) : Nat := step (step (step (step (step (step (step (step i)))))))

/-- One byte-advance of the table-driven loop:
`crc = CRC32_TABLE[(crc & 0xFF) as usize] ^ (crc >> 8)`. -/
def update (crc : Nat) : Nat := table (crc % 256) ^^^ (crc / 256)

/-- The chunked accumulation loop of `compute_software`: four bytes at a
time via `chunks_exact(4)`, then the remainder byte-by-byte. -/
def accum : Nat → List Nat → Nat
  | crc, b0 :: b1 :: b2 :: b3 :: rest =>
      let c := crc ^^^ (b0 + b1 * 256 + b2 * 65536 + b3 * 16777216)
      accum (update (update (update (update c)))) rest
  | crc, rest => rest.foldl (fun c b => table ((c ^^^ b) % 256) ^^^ (c / 256)) crc

/-- `crc32::compute_software` from `src/simd.rs`: table-driven CRC-32 with
the ISO-3309 polynomial. -/
def compute_software (data : List Nat) : Nat :=
  accum 0xFFFFFFFF data ^^^ 0xFFFFFFFF

end crc32

namespace crc32c

/-- One bit-step of the CRC-32C (Castagnoli) recurrence, polynomial
`0x82F63B78` (reflected).  This is what the x86_64 SSE4.2 `crc32`
instruction family computes. -/
def step (crc : Nat) : Nat :=
  if crc % 2 = 1 then (crc / 2) ^^^ 0x82F63B78 else crc / 2

/-- `_mm_crc32_u8 crc b`: byte-granularity CRC-32C accumulation, modelling
the hardware instruction used by `compute_sse42` in `src/simd.rs`. -/
def byteStep (crc b : Nat) : Nat :=
  step (step (step (step (step (step (step (step (crc ^^^ (b % 256)))))))))

/-- The hardware path `crc32::compute_sse42` of `src/simd.rs`, modelled at
byte granularity (`_mm_crc32_u64` over an 8-byte little-endian chunk is
exactly eight successive `_mm_crc32_u8` steps on those bytes, because
CRC-32C accumulation is byte-decomposable). -/
def compute_sse42 (data : List Nat) : Nat :=
  (data.foldl byteStep 0xFFFFFFFF) ^^^ 0xFFFFFFFF

end crc32c

/-! ## PNG codec (`src/formats/png.rs`) -/

/-- The PNG codec's checksum routine `crc32` (the software CRC-32 path of
`simd::crc32::compute`; the hardware dispatch is examined separately). -/
def png.crc32 (data : List Nat) : Nat := crc32.compute_software data

namespace png

/-- The 8-byte PNG signature. -/
def PNG_SIGNATURE : List Nat := [0x89, 0x50, 0x4E, 0x47, 0x0D, 0x0A, 0x1A, 0x0A]

/-- The metadata chunk type list `METADATA_CHUNKS`. -/
def METADATA_CHUNKS : List (List Nat) :=
  [[0x74, 0x45, 0x58, 0x74],   -- tEXt
   [0x7A, 0x54, 0x58, 0x74],   -- zTXt
   [0x69, 0x54, 0x58, 0x74],   -- iTXt
   [0x65, 0x58, 0x49, 0x66],   -- eXIf
   [0x74, 0x49, 0x4D, 0x45]]   -- tIME

/-- `is_metadata_chunk`: membership of the chunk type in `METADATA_CHUNKS`. -/
def is_metadata_chunk (t : List Nat) : Bool := METADATA_CHUNKS.any (fun m => m == t)

/-- A parsed chunk: type and data; the stored CRC is read but discarded. -/
structure Chunk where
  ctype : List Nat
  cdata : List Nat
deriving DecidableEq

def IHDRb : List Nat := [0x49, 0x48, 0x44, 0x52]
def IENDb : List Nat := [0x49, 0x45, 0x4E, 0x44]

/-- `Chunk::write_to`: length (BE), type, data, freshly computed CRC over
`type ‖ data` (BE). -/
def chunk_write (c : Chunk) : List Nat :=
  beBytes32 c.cdata.length ++ c.ctype ++ c.cdata ++ beBytes32 (crc32 (c.ctype ++ c.cdata))

/-- The loop of `parse_chunks`, with structural fuel (each iteration
advances the position by at least 12). -/
def parse_loop (data : List Nat) : Nat → Nat → Except String (List Chunk)
  | 0, _ => .error "png parse out of fuel"
  | fuel + 1, pos =>
    if pos < data.length then
      if data.length < pos + 4 then .error "Truncated chunk length"
      else if data.length < pos + 8 then .error "Truncated chunk type"
      else if data.length < pos + 8 + readBE32 data pos then .error "Truncated chunk data"
      else if data.length < pos + 8 + readBE32 data pos + 4 then .error "Truncated chunk CRC"
      else if bslice data (pos + 4) (pos + 8) = IENDb then
        .ok [⟨bslice data (pos + 4) (pos + 8),
             bslice data (pos + 8) (pos + 8 + readBE32 data pos)⟩]
      else
        match parse_loop data fuel (pos + 12 + readBE32 data pos) with
        | .error e => .error e
        | .ok rest =>
          .ok (⟨bslice data (pos + 4) (pos + 8),
               bslice data (pos + 8) (pos + 8 + readBE32 data pos)⟩ :: rest)
    else .ok []

/-- `parse_chunks`: scan from just after the signature. -/
def parse_chunks (data : List Nat) : Except String (List Chunk) :=
  parse_loop data (data.length + 1) 8

/-- `png::strip` from `src/formats/png.rs`. -/
def strip (data : List Nat) : Except String (List Nat) :=
  if data.length < 8 then .error "File too small to be a valid PNG"
  else if ¬ (PNG_SIGNATURE.isPrefixOf data) then .error "Invalid PNG signature"
  else
    match parse_chunks data with
    | .error e => .error e
    | .ok chunks =>
      if ¬ chunks.any (fun c => c.ctype == IHDRb) then .error "Missing IHDR chunk"
      else if ¬ chunks.any (fun c => c.ctype == IENDb) then .error "Missing IEND chunk"
      else
        .ok (PNG_SIGNATURE ++
          (chunks.filter (fun c => ! is_metadata_chunk c.ctype)).flatMap chunk_write)

end png

/-! ## JPEG codec (`src/formats/jpeg.rs`) -/

namespace jpeg

/-- `is_metadata_marker`: APP1, APP2–APP12, APP13, APP15, COM. -/
def is_metadata_marker (m : Nat) : Bool :=
  if m = 0xE1 then true
  else if 0xE2 ≤ m ∧ m ≤ 0xEC then true
  else if m = 0xED then true
  else if m = 0xEF then true
  else if m = 0xFE then true
  else false

/-- `is_standalone_marker`: SOI, EOI, RST0–RST7, padding/stuffing bytes. -/
def is_standalone_marker (m : Nat) : Bool :=
  if m = 0xD8 ∨ m = 0xD9 then true
  else if 0xD0 ≤ m ∧ m ≤ 0xD7 then true
  else if m = 0x00 ∨ m = 0xFF then true
  else false

/-- The `while pos < data.len() && data[pos] == 0xFF { pos += 1 }`
padding-skip loop, with structural fuel. -/
def skip_ff (data : List Nat) : Nat → Nat → Nat
  | 0, pos => pos
  | fuel + 1, pos =>
    if pos < data.length ∧ data.getD pos 0 = 0xFF then skip_ff data fuel (pos + 1)
    else pos

/-- The entropy-coded scan-copy loop inside the SOS branch of `strip`,
with structural fuel; returns the new position and the extended output. -/
def scan_copy (data : List Nat) : Nat → Nat → List Nat → Nat × List Nat
  | 0, pos, out => (pos, out)
  | fuel + 1, pos, out =>
    if pos < data.length then
      if data.getD pos 0 = 0xFF ∧ pos + 1 < data.length then
        let nxt := data.getD (pos + 1) 0
        if nxt = 0x00 then scan_copy data fuel (pos + 2) (out ++ [0xFF, 0x00])
        else if 0xD0 ≤ nxt ∧ nxt ≤ 0xD7 then scan_copy data fuel (pos + 2) (out ++ [0xFF, nxt])
        else if nxt = 0xD9 then (pos + 2, out ++ [0xFF, 0xD9])
        else (pos, out)
      else scan_copy data fuel (pos + 1) (out ++ [data.getD pos 0])
    else (pos, out)

/-- The main segment-processing loop of `jpeg::strip`, with structural fuel
(each iteration advances the position by at least one). -/
def loop (data : List Nat) : Nat → Nat → List Nat → Except String (List Nat)
  | 0, _, _ => .error "jpeg loop out of fuel"
  | fuel + 1, pos, out =>
    if pos < data.length then
      if data.getD pos 0 ≠ 0xFF then .error "Expected marker"
      else
        let pos1 := skip_ff data (data.length + 1) pos
        if data.length ≤ pos1 then .ok out
        else
          let marker := data.getD pos1 0
          let pos2 := pos1 + 1
          if marker = 0xD9 then .ok (out ++ [0xFF, 0xD9])
          else if marker = 0xDA then
            if data.length < pos2 + 2 then .error "Truncated SOS segment"
            else
              let len := readBE16 data pos2
              if data.length < pos2 + len then .error "SOS segment extends beyond file"
              else
                let res := scan_copy data (data.length + 1) (pos2 + len)
                  (out ++ [0xFF, 0xDA] ++ bslice data pos2 (pos2 + len))
                loop data fuel res.1 res.2
          else if is_standalone_marker marker then loop data fuel pos2 out
          else
            if data.length < pos2 + 2 then .error "Truncated segment header"
            else
              let len := readBE16 data pos2
              if len < 2 then .error "Invalid segment length"
              else if data.length < pos2 + len then .error "Segment extends beyond file"
              else if is_metadata_marker marker then loop data fuel (pos2 + len) out
              else loop data fuel (pos2 + len) (out ++ [0xFF, marker] ++ bslice data pos2 (pos2 + len))
    else .ok out

/-- `jpeg::strip` from `src/formats/jpeg.rs`. -/
def strip (data : List Nat) : Except String (List Nat) :=
  if data.length < 4 then .error "File too small to be a valid JPEG"
  else if data.getD 0 0 ≠ 0xFF ∨ data.getD 1 0 ≠ 0xD8 then .error "Missing JPEG SOI marker"
  else loop data (data.length + 1) 2 [0xFF, 0xD8]

end jpeg

/-! ## GIF codec (`src/formats/gif.rs`) -/

namespace gif

def GIF87A : List Nat := [0x47, 0x49, 0x46, 0x38, 0x37, 0x61]
def GIF89A : List Nat := [0x47, 0x49, 0x46, 0x38, 0x39, 0x61]

/-- `NETSCAPE2.0` application identifier bytes. -/
def NETSCAPE_ID : List Nat := [0x4E, 0x45, 0x54, 0x53, 0x43, 0x41, 0x50, 0x45, 0x32, 0x2E, 0x30]

/-- `skip_sub_blocks`: advance over a sub-block chain, `none` on
truncation; structural fuel (each iteration advances by at least one). -/
def skip_sub_blocks (data : List Nat) : Nat → Nat → Option Nat
  | 0, _ => none
  | fuel + 1, pos =>
    if pos < data.length then
      let bs := data.getD pos 0
      if bs = 0 then some (pos + 1)
      else if data.length < pos + 1 + bs then none
      else skip_sub_blocks data fuel (pos + 1 + bs)
    else none

/-- `read_sub_blocks`: collect a sub-block chain (size bytes included,
terminator included) and the position after it. -/
def read_sub_blocks (data : List Nat) : Nat → Nat → List Nat → Option (List Nat × Nat)
  | 0, _, _ => none
  | fuel + 1, pos, acc =>
    if pos < data.length then
      if data.getD pos 0 = 0 then some (acc ++ [data.getD pos 0], pos + 1)
      else if data.length < pos + 1 + data.getD pos 0 then none
      else read_sub_blocks data fuel (pos + 1 + data.getD pos 0)
        (acc ++ data.getD pos 0 :: bslice data (pos + 1) (pos + 1 + data.getD pos 0))
    else none

/-- `is_netscape_extension`: an application extension whose first sub-block
is the 11-byte `NETSCAPE2.0` identifier. -/
def is_netscape_extension (data : List Nat) (pos : Nat) : Bool :=
  if data.length < pos + 12 then false
  else if data.getD pos 0 ≠ 0x0B then false
  else bslice data (pos + 1) (pos + 12) == NETSCAPE_ID

/-- The Local Color Table size for an image descriptor's packed byte:
`3 * 2^((packed & 7) + 1)` when the high bit is set, otherwise 0. -/
def lct_size_of (packed : Nat) : Nat :=
  if packed &&& 0x80 ≠ 0 then 3 * (1 <<< ((packed &&& 0x07) + 1)) else 0

/-- The block-processing loop of `gif::strip`, with structural fuel. -/
def loop (data : List Nat) : Nat → Nat → List Nat → Except String (List Nat)
  | 0, _, _ => .error "gif loop out of fuel"
  | fuel + 1, pos, out =>
    if pos < data.length then
      if data.getD pos 0 = 0x21 then
        if data.length < pos + 2 then .error "Truncated extension block"
        else
          if data.getD (pos + 1) 0 = 0xFE then
            match skip_sub_blocks data (data.length + 1) (pos + 2) with
            | none => .error "Truncated comment extension"
            | some p => loop data fuel p out
          else if data.getD (pos + 1) 0 = 0xFF then
            if is_netscape_extension data (pos + 2) then
              match read_sub_blocks data (data.length + 1) (pos + 2) [] with
              | none => .error "Truncated application extension"
              | some r => loop data fuel r.2 (out ++ bslice data pos (pos + 2) ++ r.1)
            else
              match skip_sub_blocks data (data.length + 1) (pos + 2) with
              | none => .error "Truncated application extension"
              | some p => loop data fuel p out
          else if data.getD (pos + 1) 0 = 0xF9 then
            match read_sub_blocks data (data.length + 1) (pos + 2) [] with
            | none => .error "Truncated graphics control extension"
            | some r => loop data fuel r.2 (out ++ bslice data pos (pos + 2) ++ r.1)
          else if data.getD (pos + 1) 0 = 0x01 then
            match read_sub_blocks data (data.length + 1) (pos + 2) [] with
            | none => .error "Truncated plain text extension"
            | some r => loop data fuel r.2 (out ++ bslice data pos (pos + 2) ++ r.1)
          else
            match skip_sub_blocks data (data.length + 1) (pos + 2) with
            | none => .error "Truncated unknown extension"
            | some p => loop data fuel p out
      else if data.getD pos 0 = 0x2C then
        if data.length < pos + 10 then .error "Truncated image descriptor"
        else
          if data.getD (pos + 9) 0 &&& 0x80 ≠ 0 ∧
             data.length < pos + 10 + lct_size_of (data.getD (pos + 9) 0) then
            .error "Truncated Local Color Table"
          else
            if data.length ≤ pos + 10 + lct_size_of (data.getD (pos + 9) 0) then
              .error "Missing LZW minimum code size"
            else
              match read_sub_blocks data (data.length + 1)
                  (pos + 10 + lct_size_of (data.getD (pos + 9) 0) + 1) [] with
              | none => .error "Truncated image data"
              | some r =>
                loop data fuel r.2
                  (out ++ bslice data pos (pos + 10) ++
                    bslice data (pos + 10) (pos + 10 + lct_size_of (data.getD (pos + 9) 0)) ++
                    [data.getD (pos + 10 + lct_size_of (data.getD (pos + 9) 0)) 0] ++ r.1)
      else if data.getD pos 0 = 0x3B then .ok (out ++ [0x3B])
      else loop data fuel (pos + 1) out
    else .ok out

/-- Whether the Logical Screen Descriptor's packed byte flags a Global
Color Table (`(packed & 0x80) != 0`, with `packed = data[10]`). -/
def has_gct (data : List Nat) : Prop := data.getD 10 0 &&& 0x80 ≠ 0

instance (data : List Nat) : Decidable (has_gct data) := by
  unfold has_gct; infer_instance

/-- The Global Color Table size `3 * 2^((packed & 7) + 1)` when present,
otherwise 0. -/
def gct_size (data : List Nat) : Nat :=
  if has_gct data then 3 * (1 <<< ((data.getD 10 0 &&& 0x07) + 1)) else 0

/-- `gif::strip` from `src/formats/gif.rs`. -/
def strip (data : List Nat) : Except String (List Nat) :=
  if data.length < 13 then .error "File too small to be a valid GIF"
  else if ¬ (GIF87A.isPrefixOf data ∨ GIF89A.isPrefixOf data) then .error "Invalid GIF header"
  else if has_gct data ∧ data.length < 13 + gct_size data then .error "Truncated Global Color Table"
  else
    match loop data (data.length + 1) (13 + gct_size data)
      (bslice data 0 13 ++ (if has_gct data then bslice data 13 (13 + gct_size data) else [])) with
    | .error e => .error e
    | .ok out => .ok (if out.getLast? = some 0x3B then out else out ++ [0x3B])

/-- A well-formed GIF sub-block chain as collected by `read_sub_blocks`:
size-prefixed blocks (size 1–255 matching the payload length) ending in a
`0` terminator byte. -/
inductive WfChain : List Nat → Prop where
  | term : WfChain [0]
  | block (n : Nat) (payload rest : List Nat) :
      n = payload.length → 1 ≤ n → WfChain rest → WfChain (n :: (payload ++ rest))

/-- The shape of one block copied to the output by the `gif::strip` block
loop: a kept extension (graphics control `0xF9`, plain text `0x01`, or the
NETSCAPE application extension `0xFF`) or an image block (descriptor,
local color table, LZW minimum code size, image data), each carrying a
well-formed sub-block chain. -/
inductive EBlock : List Nat → Prop where
  | gce (chain : List Nat) : WfChain chain → EBlock (0x21 :: 0xF9 :: chain)
  | ptext (chain : List Nat) : WfChain chain → EBlock (0x21 :: 0x01 :: chain)
  | netscape (rest : List Nat) : WfChain (0x0B :: (NETSCAPE_ID ++ rest)) →
      EBlock (0x21 :: 0xFF :: 0x0B :: (NETSCAPE_ID ++ rest))
  | image (desc lct : List Nat) (lzw : Nat) (chain : List Nat) :
      desc.length = 10 → desc.getD 0 0 = 0x2C →
      lct.length = lct_size_of (desc.getD 9 0) →
      WfChain chain →
      EBlock (desc ++ (lct ++ (lzw :: chain)))

end gif

/-! ## WebP codec (`src/formats/webp.rs`) -/

namespace webp

def RIFF : List Nat := [0x52, 0x49, 0x46, 0x46]
def WEBP : List Nat := [0x57, 0x45, 0x42, 0x50]

def EXIFcc : List Nat := [0x45, 0x58, 0x49, 0x46]
def XMPcc : List Nat := [0x58, 0x4D, 0x50, 0x20]
def VP8cc : List Nat := [0x56, 0x50, 0x38, 0x20]
def VP8Lcc : List Nat := [0x56, 0x50, 0x38, 0x4C]
def VP8Xcc : List Nat := [0x56, 0x50, 0x38, 0x58]

/-- `is_metadata_chunk`: `EXIF` or `XMP ` (trailing space included). -/
def is_metadata_chunk (fourcc : List Nat) : Bool :=
  fourcc == EXIFcc || fourcc == XMPcc

/-- A parsed RIFF chunk. -/
structure Chunk where
  fourcc : List Nat
  cdata : List Nat
deriving DecidableEq

/-- `Chunk::write_to`: fourcc, little-endian size, data, even-padding. -/
def chunk_write (c : Chunk) : List Nat :=
  c.fourcc ++ leBytes32 c.cdata.length ++ c.cdata ++
    (if c.cdata.length % 2 ≠ 0 then [0] else [])

/-- The loop of `parse_chunks`, with structural fuel (each iteration
advances the position by at least eight). -/
def parse_loop (data : List Nat) : Nat → Nat → Except String (List Chunk)
  | 0, _ => .error "webp parse out of fuel"
  | fuel + 1, pos =>
    if pos < data.length then
      if data.length < pos + 4 then .ok []
      else
        if data.length < pos + 8 then .error "Truncated chunk size"
        else
          if data.length < pos + 8 + readLE32 data (pos + 4) then .error "Truncated chunk data"
          else
            match parse_loop data fuel (pos + 8 + (readLE32 data (pos + 4) + 1) / 2 * 2) with
            | .error e => .error e
            | .ok rest =>
              .ok (⟨bslice data pos (pos + 4),
                bslice data (pos + 8) (pos + 8 + readLE32 data (pos + 4))⟩ :: rest)
    else .ok []

/-- `parse_chunks`: scan from offset 12 (after `RIFF`, size, `WEBP`). -/
def parse_chunks (data : List Nat) : Except String (List Chunk) :=
  parse_loop data (data.length + 1) 12

/-- `update_vp8x_flags`: clear bit 3 (XMP, `0x08`) and bit 5 (EXIF,
`0x20`) of the first flags byte (`x &= !(0x08 | 0x20)`, i.e. `x & 0xD7`);
chunks with fewer than four data bytes are returned unchanged. -/
def update_vp8x_flags (d : List Nat) : List Nat :=
  if d.length < 4 then d
  else
    match d with
    | [] => []
    | b :: rest => (b &&& 0xD7) :: rest

/-- The chunk emitted by the output loop of `webp::strip` for one parsed
chunk: VP8X data goes through `update_vp8x_flags` first. -/
def emit_chunk (c : Chunk) : List Nat :=
  if c.fourcc == VP8Xcc then chunk_write ⟨c.fourcc, update_vp8x_flags c.cdata⟩
  else chunk_write c

/-- The chunk-emission loop of `webp::strip`: every non-metadata chunk,
VP8X data updated. -/
def emit_chunks (chunks : List Chunk) : List Nat :=
  (chunks.filter (fun c => ! is_metadata_chunk c.fourcc)).flatMap emit_chunk

/-- The parsed form of a chunk as re-emitted by the output loop: VP8X
data goes through `update_vp8x_flags`, all other chunks are unchanged. -/
def emitted_chunk (c : Chunk) : Chunk :=
  if c.fourcc == VP8Xcc then ⟨c.fourcc, update_vp8x_flags c.cdata⟩ else c

/-- `webp::strip` from `src/formats/webp.rs`.  The final RIFF-size patch
(`output[4..8] = (output.len() - 8).to_le_bytes()`) is rendered by
emitting the size field directly, since `output.len()` is the header's 12
bytes plus the emitted chunk bytes. -/
def strip (data : List Nat) : Except String (List Nat) :=
  if data.length < 12 then .error "File too small to be a valid WebP"
  else if ¬ (RIFF.isPrefixOf data) then .error "Invalid RIFF header"
  else if ¬ (bslice data 8 12 = WEBP) then .error "Invalid WebP identifier"
  else
    match parse_chunks data with
    | .error e => .error e
    | .ok chunks =>
      if ¬ chunks.any (fun c => c.fourcc == VP8cc || c.fourcc == VP8Lcc) ∧
         ¬ chunks.any (fun c => c.fourcc == VP8Xcc) then
        .error "Missing image data chunk"
      else
        .ok (RIFF ++ leBytes32 ((emit_chunks chunks).length + 4) ++ WEBP ++ emit_chunks chunks)

end webp

/-! ## TIFF codec (`src/formats/tiff.rs`) -/

namespace tiff

inductive ByteOrder where
  | Little | Big
deriving DecidableEq

/-- `ByteOrder::read_u16` on the two bytes at `pos`. -/
def read_u16 (bo : ByteOrder) (data : List Nat) (pos : Nat) : Nat :=
  match bo with
  | .Little => data.getD pos 0 + data.getD (pos + 1) 0 * 256
  | .Big => data.getD pos 0 * 256 + data.getD (pos + 1) 0

/-- `ByteOrder::read_u32` on the four bytes at `pos`. -/
def read_u32 (bo : ByteOrder) (data : List Nat) (pos : Nat) : Nat :=
  match bo with
  | .Little => readLE32 data pos
  | .Big => readBE32 data pos

/-- `ByteOrder::write_u16`. -/
def write_u16 (bo : ByteOrder) (v : Nat) : List Nat :=
  match bo with
  | .Little => leBytes16 v
  | .Big => beBytes16 v

/-- `ByteOrder::write_u32`. -/
def write_u32 (bo : ByteOrder) (v : Nat) : List Nat :=
  match bo with
  | .Little => leBytes32 v
  | .Big => beBytes32 v

/-- `type_size`: byte width of a TIFF field type. -/
def type_size (t : Nat) : Nat :=
  if t = 1 ∨ t = 2 ∨ t = 6 ∨ t = 7 then 1
  else if t = 3 ∨ t = 8 then 2
  else if t = 4 ∨ t = 9 ∨ t = 11 then 4
  else if t = 5 ∨ t = 10 ∨ t = 12 then 8
  else 1

/-- `METADATA_TAGS`: the tag set stripped by the codec. -/
def METADATA_TAGS : List Nat :=
  [270, 271, 272, 305, 306, 315, 316, 33432, 34665, 34853, 700, 33723, 34377, 40965]

/-- `is_metadata_tag`. -/
def is_metadata_tag (tag : Nat) : Bool := METADATA_TAGS.contains tag

/-- An IFD entry: tag, field type, count, and the raw 4-byte
value-or-offset field. -/
structure IfdEntry where
  tag : Nat
  ftype : Nat
  count : Nat
  voff : List Nat
deriving DecidableEq

/-- `IfdEntry::is_inline`. -/
def is_inline (e : IfdEntry) : Bool := type_size e.ftype * e.count ≤ 4

/-- The entry-reading loop of `parse_ifd` (structural recursion on the
entry count). -/
def parse_entries (bo : ByteOrder) (data : List Nat) : Nat → Nat → Except String (List IfdEntry)
  | _, 0 => .ok []
  | pos, n + 1 =>
    if data.length < pos + 12 then .error "Truncated IFD entry"
    else
      match parse_entries bo data (pos + 12) n with
      | .error e => .error e
      | .ok rest =>
        .ok (⟨read_u16 bo data pos, read_u16 bo data (pos + 2),
              read_u32 bo data (pos + 4), bslice data (pos + 8) (pos + 12)⟩ :: rest)

/-- `parse_ifd`: entry count, entries, next-IFD pointer. -/
def parse_ifd (bo : ByteOrder) (data : List Nat) (off : Nat) :
    Except String (List IfdEntry × Nat) :=
  if data.length < off + 2 then .error "Truncated IFD entry count"
  else
    let n := read_u16 bo data off
    match parse_entries bo data (off + 2) n with
    | .error e => .error e
    | .ok entries =>
      if data.length < off + 2 + 12 * n + 4 then .error "Truncated next IFD pointer"
      else .ok (entries, read_u32 bo data (off + 2 + 12 * n))

/-- The IFD-chain walk of `strip` (`while current_offset != 0 &&
current_offset < data.len()`), filtering out metadata tags per IFD.
Structural fuel; on an acyclic chain at most `data.length` distinct
offsets are visited, so fuel `data.length + 1` is never exhausted (a
cyclic chain makes the Rust loop diverge). -/
def collect_ifds (bo : ByteOrder) (data : List Nat) : Nat → Nat → Except String (List (List IfdEntry))
  | 0, _ => .error "cyclic IFD chain"
  | fuel + 1, off =>
    if off ≠ 0 ∧ off < data.length then
      match parse_ifd bo data off with
      | .error e => .error e
      | .ok r =>
        match collect_ifds bo data fuel r.2 with
        | .error e => .error e
        | .ok rest => .ok (r.1.filter (fun e => ! is_metadata_tag e.tag) :: rest)
    else .ok []

/-- `read_offset_values`: decode a SHORT/LONG value array, inline or at an
absolute offset, skipping out-of-bounds elements. -/
def read_offset_values (bo : ByteOrder) (data : List Nat) (e : IfdEntry) : List Nat :=
  if is_inline e then
    if e.ftype = 3 then (List.range (min e.count 2)).map (fun i => read_u16 bo e.voff (i * 2))
    else if e.ftype = 4 then (if 1 ≤ e.count then [read_u32 bo e.voff 0] else [])
    else []
  else
    let off := read_u32 bo e.voff 0
    if e.ftype = 3 then
      (List.range e.count).filterMap (fun i =>
        if off + i * 2 + 2 ≤ data.length then some (read_u16 bo data (off + i * 2)) else none)
    else if e.ftype = 4 then
      (List.range e.count).filterMap (fun i =>
        if off + i * 4 + 4 ≤ data.length then some (read_u32 bo data (off + i * 4)) else none)
    else []

/-- The 12 bytes written for one retained IFD entry: tag, type, count and
the original `value_offset` field copied unchanged. -/
def entry_bytes (bo : ByteOrder) (e : IfdEntry) : List Nat :=
  write_u16 bo e.tag ++ write_u16 bo e.ftype ++ write_u32 bo e.count ++ e.voff

/-- The bytes written for one rewritten IFD: entry count, entries, and a
next-IFD pointer that is always written as 0. -/
def ifd_block (bo : ByteOrder) (entries : List IfdEntry) : List Nat :=
  write_u16 bo entries.length ++ entries.flatMap (entry_bytes bo) ++ write_u32 bo 0

/-- The `(offset, byte count)` pairs collected from one IFD's retained
`StripOffsets`/`TileOffsets` entries, paired with the first
`StripByteCounts`/`TileByteCounts` entry of the same IFD. -/
def ifd_pairs (bo : ByteOrder) (data : List Nat) (entries : List IfdEntry) : List (Nat × Nat) :=
  entries.flatMap (fun e =>
    if e.tag = 273 ∨ e.tag = 324 then
      match entries.find? (fun x => x.tag = 279 ∨ x.tag = 325) with
      | some bc => (read_offset_values bo data e).zip (read_offset_values bo data bc)
      | none => []
    else [])

/-- The byte-order marker written back to the output header. -/
def header_marker (bo : ByteOrder) : List Nat :=
  match bo with
  | .Little => [0x49, 0x49]
  | .Big => [0x4D, 0x4D]

/-- The output buffer built by `strip` before the size fallback: header,
first-IFD offset (8 when any IFD was parsed, else the untouched
placeholder 0), the rewritten IFDs, then the image strip/tile bytes
copied verbatim from the original buffer. -/
def rewrite_core (bo : ByteOrder) (data : List Nat) (ifds : List (List IfdEntry)) : List Nat :=
  header_marker bo ++ write_u16 bo 42 ++
    (if ifds.isEmpty then [0, 0, 0, 0] else write_u32 bo 8) ++
    ifds.flatMap (ifd_block bo) ++
    (ifds.flatMap (ifd_pairs bo data)).flatMap (fun p =>
      if p.1 + p.2 ≤ data.length then bslice data p.1 (p.1 + p.2) else [])

/-- Validation, IFD-chain walk and output construction of `tiff::strip`,
up to (but excluding) the "output too small" fallback. -/
def rewrite (data : List Nat) : Except String (List Nat) :=
  if data.length < 8 then .error "File too small to be a valid TIFF"
  else
    match (if bslice data 0 2 = [0x49, 0x49] then some ByteOrder.Little
           else if bslice data 0 2 = [0x4D, 0x4D] then some ByteOrder.Big
           else none) with
    | none => .error "Invalid TIFF byte order marker"
    | some bo =>
      if ¬ (read_u16 bo data 2 = 42) then .error "Invalid TIFF magic number"
      else
        let first := read_u32 bo data 4
        if data.length ≤ first then .error "IFD offset beyond file"
        else
          match collect_ifds bo data (data.length + 1) first with
          | .error e => .error e
          | .ok ifds => .ok (rewrite_core bo data ifds)

/-- `tiff::strip` from `src/formats/tiff.rs`: the rewrite, then the
conservative fallback returning the original bytes when the rewrite is
implausibly small. -/
def strip (data : List Nat) : Except String (List Nat) :=
  match rewrite data with
  | .error e => .error e
  | .ok out => if out.length < 100 ∧ 100 < data.length then .ok data else .ok out

end tiff

/-! ## Strip dispatcher (`src/formats/mod.rs`) -/

/-- `StripResult`: cleaned data plus removed byte count. -/
structure StripResult where
  data : List Nat
  bytes_removed : Nat
deriving DecidableEq

/-- `strip_metadata` from `src/formats/mod.rs`: detect the format,
dispatch to the codec, report the length delta (`saturating_sub`, which
is exactly `Nat` subtraction). -/
def strip_metadata (data : List Nat) : Except String StripResult :=
  match detect_format data with
  | none => .error "unsupported format"
  | some fmt =>
    match (match fmt with
           | .Jpeg => jpeg.strip data
           | .Png => png.strip data
           | .Gif => gif.strip data
           | .WebP => webp.strip data
           | .Tiff => tiff.strip data) with
    | .error e => .error e
    | .ok result => .ok ⟨result, data.length - result.length⟩

/-! ## Concrete inputs used by witnesses and counterexamples -/

/-- A little-endian TIFF: one IFD with ten entries (eight essential, two
metadata: Make and Software), one one-byte image strip at offset 134;
135 bytes in total. -/
def tiffCex : List Nat := [73, 73, 42, 0, 8, 0, 0, 0, 10, 0, 0, 1, 3, 0, 1, 0, 0, 0, 1, 0, 0, 0, 1, 1, 3, 0, 1, 0, 0, 0, 1, 0, 0, 0, 2, 1, 3, 0, 1, 0, 0, 0, 8, 0, 0, 0, 3, 1, 3, 0, 1, 0, 0, 0, 1, 0, 0, 0, 6, 1, 3, 0, 1, 0, 0, 0, 1, 0, 0, 0, 17, 1, 4, 0, 1, 0, 0, 0, 134, 0, 0, 0, 22, 1, 3, 0, 1, 0, 0, 0, 1, 0, 0, 0, 23, 1, 4, 0, 1, 0, 0, 0, 1, 0, 0, 0, 15, 1, 2, 0, 4, 0, 0, 0, 84, 115, 116, 0, 49, 1, 2, 0, 4, 0, 0, 0, 80, 77, 73, 0, 0, 0, 0, 0, 171]

/-- `tiff.strip tiffCex`: the rewritten output (111 bytes); the Make and
Software entries are gone, the pixel byte is appended at offset 110, but
the retained StripOffsets entry still holds the original offset 134. -/
def tiffCexOut1 : List Nat := [73, 73, 42, 0, 8, 0, 0, 0, 8, 0, 0, 1, 3, 0, 1, 0, 0, 0, 1, 0, 0, 0, 1, 1, 3, 0, 1, 0, 0, 0, 1, 0, 0, 0, 2, 1, 3, 0, 1, 0, 0, 0, 8, 0, 0, 0, 3, 1, 3, 0, 1, 0, 0, 0, 1, 0, 0, 0, 6, 1, 3, 0, 1, 0, 0, 0, 1, 0, 0, 0, 17, 1, 4, 0, 1, 0, 0, 0, 134, 0, 0, 0, 22, 1, 3, 0, 1, 0, 0, 0, 1, 0, 0, 0, 23, 1, 4, 0, 1, 0, 0, 0, 1, 0, 0, 0, 0, 0, 0, 0, 171]

/-- `tiff.strip tiffCexOut1`: stripping a second time drops the
out-of-bounds strip copy, removing one more byte. -/
def tiffCexOut2 : List Nat := [73, 73, 42, 0, 8, 0, 0, 0, 8, 0, 0, 1, 3, 0, 1, 0, 0, 0, 1, 0, 0, 0, 1, 1, 3, 0, 1, 0, 0, 0, 1, 0, 0, 0, 2, 1, 3, 0, 1, 0, 0, 0, 8, 0, 0, 0, 3, 1, 3, 0, 1, 0, 0, 0, 1, 0, 0, 0, 6, 1, 3, 0, 1, 0, 0, 0, 1, 0, 0, 0, 17, 1, 4, 0, 1, 0, 0, 0, 134, 0, 0, 0, 22, 1, 3, 0, 1, 0, 0, 0, 1, 0, 0, 0, 23, 1, 4, 0, 1, 0, 0, 0, 1, 0, 0, 0, 0, 0, 0, 0]

/-- A 114-byte TIFF whose only IFD is empty, so the rewrite is 14 bytes:
triggers the "output too small" fallback. -/
def tiffSmallRewrite : List Nat := [73, 73, 42, 0, 8, 0, 0, 0, 0, 0, 0, 0, 0, 0, 0, 0, 0, 0, 0, 0, 0, 0, 0, 0, 0, 0, 0, 0, 0, 0, 0, 0, 0, 0, 0, 0, 0, 0, 0, 0, 0, 0, 0, 0, 0, 0, 0, 0, 0, 0, 0, 0, 0, 0, 0, 0, 0, 0, 0, 0, 0, 0, 0, 0, 0, 0, 0, 0, 0, 0, 0, 0, 0, 0, 0, 0, 0, 0, 0, 0, 0, 0, 0, 0, 0, 0, 0, 0, 0, 0, 0, 0, 0, 0, 0, 0, 0, 0, 0, 0, 0, 0, 0, 0, 0, 0, 0, 0, 0, 0, 0, 0, 0, 0]

/-- The 14-byte rewrite of `tiffSmallRewrite` (before the fallback). -/
def tiffSmallRewriteOut : List Nat := [73, 73, 42, 0, 8, 0, 0, 0, 0, 0, 0, 0, 0, 0]

/-- A little-endian TIFF with two chained IFDs (the first IFD's next-IFD
pointer is 26). -/
def tiffTwoIfd : List Nat := [73, 73, 42, 0, 8, 0, 0, 0, 1, 0, 0, 1, 3, 0, 1, 0, 0, 0, 1, 0, 0, 0, 26, 0, 0, 0, 1, 0, 1, 1, 3, 0, 1, 0, 0, 0, 2, 0, 0, 0, 0, 0, 0, 0]

/-- `tiff.strip tiffTwoIfd`: both IFDs are emitted, every next-IFD pointer
is written as 0. -/
def tiffTwoIfdOut : List Nat := [73, 73, 42, 0, 8, 0, 0, 0, 1, 0, 0, 1, 3, 0, 1, 0, 0, 0, 1, 0, 0, 0, 0, 0, 0, 0, 1, 0, 1, 1, 3, 0, 1, 0, 0, 0, 2, 0, 0, 0, 0, 0, 0, 0]

/-- An 82-byte PNG: signature, IHDR, tEXt, IDAT, IEND. -/
def pngSample : List Nat := [137, 80, 78, 71, 13, 10, 26, 10, 0, 0, 0, 13, 73, 72, 68, 82, 0, 0, 0, 1, 0, 0, 0, 1, 8, 0, 0, 0, 0, 58, 126, 155, 85, 0, 0, 0, 3, 116, 69, 88, 116, 107, 0, 118, 203, 4, 243, 144, 0, 0, 0, 10, 73, 68, 65, 84, 120, 156, 98, 96, 0, 0, 0, 2, 0, 1, 132, 5, 164, 239, 0, 0, 0, 0, 73, 69, 78, 68, 174, 66, 96, 130]

/-- `png.strip pngSample`: the tEXt chunk is gone, all others re-encoded
with freshly computed CRCs (67 bytes). -/
def pngSampleOut : List Nat := [137, 80, 78, 71, 13, 10, 26, 10, 0, 0, 0, 13, 73, 72, 68, 82, 0, 0, 0, 1, 0, 0, 0, 1, 8, 0, 0, 0, 0, 58, 126, 155, 85, 0, 0, 0, 10, 73, 68, 65, 84, 120, 156, 98, 96, 0, 0, 0, 2, 0, 1, 132, 5, 164, 239, 0, 0, 0, 0, 73, 69, 78, 68, 174, 66, 96, 130]

/-- A WebP whose VP8X chunk has only one data byte (flags `0x28`), which
`update_vp8x_flags` leaves untouched. -/
def webpCex : List Nat := [82, 73, 70, 70, 14, 0, 0, 0, 87, 69, 66, 80, 86, 80, 56, 88, 1, 0, 0, 0, 40, 0]

/-- A WebP with a well-formed 10-byte VP8X chunk (flags `0x28`), a VP8
image chunk and an EXIF chunk. -/
def webpSample : List Nat := [82, 73, 70, 70, 60, 0, 0, 0, 87, 69, 66, 80, 86, 80, 56, 88, 10, 0, 0, 0, 40, 0, 0, 0, 0, 0, 0, 0, 0, 0, 86, 80, 56, 32, 14, 0, 0, 0, 48, 1, 0, 157, 1, 42, 1, 0, 1, 0, 0, 52, 37, 159, 69, 88, 73, 70, 7, 0, 0, 0, 69, 120, 105, 102, 0, 0, 84, 0]

/-- `webp.strip webpSample`: EXIF chunk gone, VP8X flags cleared, RIFF
size patched. -/
def webpSampleOut : List Nat := [82, 73, 70, 70, 44, 0, 0, 0, 87, 69, 66, 80, 86, 80, 56, 88, 10, 0, 0, 0, 0, 0, 0, 0, 0, 0, 0, 0, 0, 0, 86, 80, 56, 32, 14, 0, 0, 0, 48, 1, 0, 157, 1, 42, 1, 0, 1, 0, 0, 52, 37, 159]

/-- A minimal single-image GIF ending in the trailer byte `0x3B`. -/
def gifSample : List Nat := [71, 73, 70, 56, 57, 97, 1, 0, 1, 0, 0, 0, 0, 44, 0, 0, 0, 0, 1, 0, 1, 0, 0, 2, 2, 68, 1, 0, 59]

/-- A 14-byte JPEG: SOI, one APP1 segment (8 bytes), EOI. -/
def jpegCex : List Nat := [255, 216, 255, 225, 0, 8, 0, 0, 0, 0, 0, 0, 255, 217]

/-! ## Claim theorems -/

/-- C2: the PNG codec's checksum routine computes ISO-3309 CRC-32 and on
`"IEND"` returns `0xAE426082`; but the hardware CRC-32C path that
`simd::crc32::compute` dispatches to on SSE4.2-capable CPUs returns a
different value on the same input, so the Castagnoli instruction path IS
substituted for the ISO-3309 computation there, contradicting the code's
own tests (`test_crc32_known_value`, `test_crc32_software_matches`). -/
theorem C2_crc32_hardware_path_diverges :
    png.crc32 [0x49, 0x45, 0x4E, 0x44] = 0xAE426082 ∧
    crc32.compute_software [0x49, 0x45, 0x4E, 0x44] = 0xAE426082 ∧
    crc32c.compute_sse42 [0x49, 0x45, 0x4E, 0x44] = 0xB917B5EE ∧
    (0xB917B5EE : Nat) ≠ 0xAE426082 := by
  refine ⟨by decide, by decide, by decide, by decide⟩

/-- C3: whenever the TIFF rewrite succeeds but produces fewer than 100
bytes while the input exceeds 100 bytes, `tiff::strip` returns `Ok` with
the original input bytes unmodified and raises no error. -/
theorem C3_tiff_small_output_fallback (data out : List Nat)
    (h : tiff.rewrite data = .ok out) (hsmall : out.length < 100)
    (hbig : 100 < data.length) :
    tiff.strip data = .ok data := by
  unfold tiff.strip
  rw [h]
  simp [hsmall, hbig]

/-- Witness for C3 at a concrete 114-byte TIFF whose rewrite is 14 bytes. -/
theorem C3_tiff_small_output_fallback_witness :
    tiff.rewrite tiffSmallRewrite = .ok tiffSmallRewriteOut ∧
    tiffSmallRewriteOut.length < 100 ∧ 100 < tiffSmallRewrite.length ∧
    tiff.strip tiffSmallRewrite = .ok tiffSmallRewrite :=
  ⟨by decide, by decide, by decide,
    C3_tiff_small_output_fallback tiffSmallRewrite tiffSmallRewriteOut
      (by decide) (by decide) (by decide)⟩

/-- C1 (code bug): on `tiffCex` the TIFF codec accepts and rewrites
(fallback not taken, the output is 111 bytes), the pixel byte `0xAB` is
copied verbatim and appended at output offset 110, but the retained
StripOffsets entry (tag 273, written at output bytes 70..81) still holds
the original offset 134, which lies beyond the 111-byte output — the
offsets are never relocated, so the entry does not point at the copied
pixel bytes and a downstream decoder cannot read the strip. -/
theorem C1_tiff_offsets_not_relocated :
    tiff.strip tiffCex = .ok tiffCexOut1 ∧
    tiffCexOut1.length = 111 ∧
    tiff.read_u16 .Little tiffCexOut1 70 = 273 ∧
    tiff.read_u32 .Little tiffCexOut1 78 = 134 ∧
    tiffCexOut1.getD 110 0 = 0xAB ∧
    tiffCexOut1.length ≤ 134 := by
  refine ⟨by decide, by decide, by decide, by decide, by decide, by decide⟩

/-- Counterexample to C8 as stated: on the TIFF input `tiffCex` the first
`strip_metadata` succeeds (removing 24 bytes), the second application to
its output also succeeds but removes 1 further byte, not zero, and its
output is shorter than its input. -/
theorem C8_counterexample_second_strip_removes_more :
    strip_metadata tiffCex = .ok ⟨tiffCexOut1, 24⟩ ∧
    strip_metadata tiffCexOut1 = .ok ⟨tiffCexOut2, 1⟩ ∧
    (1 : Nat) ≠ 0 ∧
    tiffCexOut2.length ≠ tiffCexOut1.length := by
  refine ⟨by decide, by decide, by decide, by decide⟩

/-- C7: every successful `gif::strip` output is nonempty and ends with the
trailer byte `0x3B`; the block loop copies an encountered trailer and
stops there, the loop stops at end-of-input without one, and in that case
the wrapper appends a synthetic trailer. -/
theorem C7_gif_output_ends_with_trailer (data out : List Nat)
    (h : gif.strip data = .ok out) :
    out ≠ [] ∧ out.getLast? = some 0x3B ∧
    (∀ fuel pos acc, pos < data.length → data.getD pos 0 = 0x3B →
      gif.loop data (fuel + 1) pos acc = .ok (acc ++ [0x3B])) ∧
    (∀ fuel pos acc, data.length ≤ pos →
      gif.loop data (fuel + 1) pos acc = .ok acc) := by
  have hstep : ∀ fuel pos acc, pos < data.length → data.getD pos 0 = 0x3B →
      gif.loop data (fuel + 1) pos acc = .ok (acc ++ [0x3B]) := by
    intro fuel pos acc hlt h3b
    have hg : data[pos] = 0x3B := by
      rwa [List.getD_eq_getElem data 0 hlt] at h3b
    unfold gif.loop
    simp [hlt, hg]
  have hend : ∀ fuel pos acc, data.length ≤ pos →
      gif.loop data (fuel + 1) pos acc = .ok acc := by
    intro fuel pos acc hge
    unfold gif.loop
    simp [Nat.not_lt.mpr hge]
  have hmain : out ≠ [] ∧ out.getLast? = some 0x3B := by
    unfold gif.strip at h
    split_ifs at h
    all_goals
      split at h
      · cases h
      · rename_i out' hloop
        split_ifs at h with hc <;> cases h
        · exact ⟨fun hnil => by simp [hnil] at hc, hc⟩
        · exact ⟨List.append_ne_nil_of_right_ne_nil _ (by simp),
            List.getLast?_concat _⟩
  exact ⟨hmain.1, hmain.2, hstep, hend⟩


/-- Witness for C7 at a concrete minimal GIF. -/
theorem C7_gif_output_ends_with_trailer_witness :
    gif.strip gifSample = .ok gifSample ∧ gifSample.getLast? = some 0x3B :=
  ⟨by decide, (C7_gif_output_ends_with_trailer gifSample gifSample (by decide)).2.1⟩

/-! ### Shared helper lemmas -/

/-- A list is a `isPrefixOf`-prefix of itself followed by anything. -/
theorem isPrefixOf_self_append (l t : List Nat) : l.isPrefixOf (l ++ t) = true := by
  induction l with
  | nil => simp
  | cons a as ih => simp [List.isPrefixOf, ih]

/-- A successful `isPrefixOf` pins down the first byte. -/
theorem getD_zero_of_isPrefixOf {a : Nat} {p data : List Nat}
    (h : (a :: p).isPrefixOf data = true) : data.getD 0 0 = a := by
  cases data with
  | nil => simp [List.isPrefixOf] at h
  | cons b bs =>
    simp only [List.isPrefixOf, Bool.and_eq_true, beq_iff_eq] at h
    rw [h.1]
    rfl

/-- Length of a `flatMap` whose pieces all have length `k`. -/
theorem length_flatMap_const {α : Type} (f : α → List Nat) (k : Nat) (l : List α)
    (h : ∀ a ∈ l, (f a).length = k) : (l.flatMap f).length = k * l.length := by
  induction l with
  | nil => simp
  | cons a as ih =>
    rw [List.flatMap_cons, List.length_append, h a (List.mem_cons_self a as),
      ih (fun x hx => h x (List.mem_cons_of_mem a hx)), List.length_cons, Nat.mul_succ]
    omega

/-- Extracting the middle component of a three-part append with `bslice`. -/
theorem bslice_append_mid (pre mid rest : List Nat) :
    bslice (pre ++ (mid ++ rest)) pre.length (pre.length + mid.length) = mid := by
  unfold bslice
  rw [List.drop_left' rfl, show pre.length + mid.length - pre.length = mid.length by omega]
  exact List.take_left' rfl

/-! ### C10: rewritten next-IFD pointers are always zero -/

/-- The bytes written for one entry are always 12 when the raw
value-offset field has its parsed length 4. -/
theorem entry_bytes_length (bo : tiff.ByteOrder) (e : tiff.IfdEntry)
    (h : e.voff.length = 4) : (tiff.entry_bytes bo e).length = 12 := by
  cases bo <;>
    simp [tiff.entry_bytes, tiff.write_u16, tiff.write_u32, leBytes16, beBytes16,
      leBytes32, beBytes32, h]

/-- C10: every rewritten IFD block ends, right after its `2 + 12·n` bytes
of entry count and entries, with a next-IFD pointer written as 0 (so the
written pointer never reaches a later IFD); and on a concrete two-IFD
input both IFDs are emitted into the output (the second occupying bytes
26..43 exactly as rewritten), the input's first IFD pointed at the second
(offset 26) but the output's first IFD carries next-pointer 0, leaving
the emitted second IFD unreachable. -/
theorem C10_next_ifd_pointer_always_zero :
    (∀ (bo : tiff.ByteOrder) (entries : List tiff.IfdEntry),
      (∀ e ∈ entries, e.voff.length = 4) →
      (tiff.ifd_block bo entries).drop (2 + 12 * entries.length) = tiff.write_u32 bo 0 ∧
      tiff.write_u32 bo 0 = [0, 0, 0, 0]) ∧
    (tiff.strip tiffTwoIfd = .ok tiffTwoIfdOut ∧
     tiff.read_u32 .Little tiffTwoIfd 22 = 26 ∧
     tiff.read_u32 .Little tiffTwoIfdOut 22 = 0 ∧
     bslice tiffTwoIfdOut 26 44 = bslice tiffTwoIfd 26 44 ∧
     tiffTwoIfdOut.length = 44) := by
  constructor
  · intro bo entries hv
    constructor
    · have ha : (tiff.write_u16 bo entries.length).length = 2 := by
        cases bo <;> simp [tiff.write_u16, leBytes16, beBytes16]
      have hb : (entries.flatMap (tiff.entry_bytes bo)).length = 12 * entries.length :=
        length_flatMap_const _ 12 _ (fun e he => entry_bytes_length bo e (hv e he))
      unfold tiff.ifd_block
      rw [List.append_assoc,
        show 2 + 12 * entries.length =
            (tiff.write_u16 bo entries.length).length + 12 * entries.length by rw [ha],
        List.drop_append]
      exact List.drop_left' hb
    · cases bo <;> decide
  · refine ⟨by decide, by decide, by decide, by decide, by decide⟩

/-- Witness for C10's universally quantified part at a concrete entry list. -/
theorem C10_next_ifd_pointer_always_zero_witness :
    (tiff.ifd_block .Little [⟨256, 3, 1, [1, 0, 0, 0]⟩]).drop 14 =
      tiff.write_u32 .Little 0 :=
  (C10_next_ifd_pointer_always_zero.1 .Little [⟨256, 3, 1, [1, 0, 0, 0]⟩]
    (by decide)).1

/-! ### C6: WebP VP8X flag clearing and RIFF size patch -/

theorem leBytes32_length (v : Nat) : (leBytes32 v).length = 4 := rfl

/-- Counterexample to C6 as stated: `webpCex` is accepted by the WebP
codec and its VP8X chunk (fourcc at output bytes 12..15) is re-emitted,
yet the chunk's first flags byte (output byte 20) is still `0x28`: bits 3
and 5 are NOT cleared, because the chunk's data is shorter than 4 bytes
and `update_vp8x_flags` returns it unchanged. -/
theorem C6_counterexample_short_vp8x_flags_kept :
    webp.strip webpCex = .ok webpCex ∧
    bslice webpCex 12 16 = webp.VP8Xcc ∧
    webpCex.getD 20 0 = 0x28 ∧
    Nat.testBit 0x28 3 = true ∧
    Nat.testBit 0x28 5 = true := by
  refine ⟨by decide, by decide, by decide, by decide, by decide⟩

/-- C6 (amended): when a VP8X chunk with at least 4 data bytes is
re-emitted its first flags byte is masked with `0xD7`, clearing bit 3
(XMP) and bit 5 (EXIF) while leaving every other bit of that byte and all
other bytes (the canvas-dimension fields included) untouched; a VP8X
chunk with fewer than 4 data bytes is re-emitted unchanged.  For every
accepted input the output is the RIFF header followed by the emitted
chunks, with bytes 4..7 holding little-endian `output_length - 8`, and
each chunk is emitted via `update_vp8x_flags` exactly when its fourcc is
`VP8X`. -/
theorem C6_webp_vp8x_flags_amended :
    (∀ d : List Nat, 4 ≤ d.length →
      (webp.update_vp8x_flags d).length = d.length ∧
      (webp.update_vp8x_flags d).getD 0 0 = d.getD 0 0 &&& 0xD7 ∧
      (d.getD 0 0 &&& 0xD7) &&& 0x08 = 0 ∧
      (d.getD 0 0 &&& 0xD7) &&& 0x20 = 0 ∧
      (∀ i, 1 ≤ i → (webp.update_vp8x_flags d).getD i 0 = d.getD i 0) ∧
      (∀ i, i < 8 → i ≠ 3 → i ≠ 5 →
        ((webp.update_vp8x_flags d).getD 0 0).testBit i = (d.getD 0 0).testBit i)) ∧
    (∀ d : List Nat, d.length < 4 → webp.update_vp8x_flags d = d) ∧
    (∀ data chunks out, webp.strip data = .ok out →
      webp.parse_chunks data = .ok chunks →
      out = webp.RIFF ++ leBytes32 (out.length - 8) ++ webp.WEBP ++ webp.emit_chunks chunks ∧
      bslice out 4 8 = leBytes32 (out.length - 8) ∧
      (∀ c ∈ chunks, webp.emit_chunk c =
        (if c.fourcc == webp.VP8Xcc then
          webp.chunk_write ⟨c.fourcc, webp.update_vp8x_flags c.cdata⟩
        else webp.chunk_write c))) := by
  refine ⟨?_, ?_, ?_⟩
  · intro d hd
    match d, hd with
    | b :: rest, hd =>
      have hnot : ¬ (b :: rest).length < 4 := by omega
      unfold webp.update_vp8x_flags
      rw [if_neg hnot]
      refine ⟨by simp, by simp, ?_, ?_, ?_, ?_⟩
      · rw [Nat.land_assoc, show (0xD7 &&& 0x08 : Nat) = 0 by decide]
        exact Nat.and_zero _
      · rw [Nat.land_assoc, show (0xD7 &&& 0x20 : Nat) = 0 by decide]
        exact Nat.and_zero _
      · intro i hi
        obtain ⟨j, rfl⟩ : ∃ j, i = j + 1 := ⟨i - 1, by omega⟩
        simp
      · intro i h8 h3 h5
        simp only [List.getD_cons_zero]
        rw [Nat.testBit_land]
        have ht : Nat.testBit 0xD7 i = true := by
          interval_cases i
          all_goals first
            | exact absurd rfl h3
            | exact absurd rfl h5
            | decide
        rw [ht, Bool.and_true]
  · intro d hd
    unfold webp.update_vp8x_flags
    rw [if_pos hd]
  · intro data chunks out h hpc
    unfold webp.strip at h
    split_ifs at h with h1 h2 h3
    split at h
    · cases h
    · rename_i chunks' hp
      rw [hp] at hpc
      injection hpc with hq
      subst hq
      split at h
      · cases h
      · injection h with hout
        subst hout
        have hlen : (webp.RIFF ++ leBytes32 ((webp.emit_chunks chunks').length + 4) ++
            webp.WEBP ++ webp.emit_chunks chunks').length =
            12 + (webp.emit_chunks chunks').length := by
          simp [webp.RIFF, webp.WEBP, leBytes32]
          omega
        refine ⟨?_, ?_, fun c _ => rfl⟩
        · rw [hlen, show 12 + (webp.emit_chunks chunks').length - 8 =
            (webp.emit_chunks chunks').length + 4 by omega]
        · rw [hlen, show 12 + (webp.emit_chunks chunks').length - 8 =
            (webp.emit_chunks chunks').length + 4 by omega,
            List.append_assoc, List.append_assoc]
          exact bslice_append_mid webp.RIFF
            (leBytes32 ((webp.emit_chunks chunks').length + 4))
            (webp.WEBP ++ webp.emit_chunks chunks')

/-- Witness for C6's amended claim at a concrete WebP with a well-formed
VP8X chunk. -/
theorem C6_webp_vp8x_flags_amended_witness :
    bslice webpSampleOut 4 8 = leBytes32 (webpSampleOut.length - 8) :=
  (C6_webp_vp8x_flags_amended.2.2 webpSample
    [⟨[86, 80, 56, 88], [40, 0, 0, 0, 0, 0, 0, 0, 0, 0]⟩,
     ⟨[86, 80, 56, 32], [48, 1, 0, 157, 1, 42, 1, 0, 1, 0, 0, 52, 37, 159]⟩,
     ⟨[69, 88, 73, 70], [69, 120, 105, 102, 0, 0, 84]⟩]
    webpSampleOut (by decide) (by decide)).2.1

/-! ### C4: JPEG metadata marker set and segment handling -/

/-- When the byte at `pos` is `0xFF` and the next byte is not, the
padding-skip loop advances exactly one position. -/
theorem skip_ff_single (data : List Nat) (pos : Nat)
    (h1 : pos + 1 < data.length) (h2 : data.getD pos 0 = 0xFF)
    (h3 : data.getD (pos + 1) 0 ≠ 0xFF) :
    jpeg.skip_ff data (data.length + 1) pos = pos + 1 := by
  obtain ⟨k, hk⟩ : ∃ k, data.length + 1 = k + 2 := ⟨data.length - 1, by omega⟩
  rw [hk]
  unfold jpeg.skip_ff
  rw [if_pos ⟨by omega, h2⟩]
  unfold jpeg.skip_ff
  rw [if_neg (fun hc => h3 hc.2)]

/-- C4: `is_metadata_marker` holds exactly on
{APP1, APP2..APP12, APP13, APP15, COM}; in particular APP14 (`0xEE`) and
APP0 (`0xE0`) are not metadata.  At any length-delimited segment whose
marker is none of EOI/SOS/standalone, one step of the strip loop skips
the whole segment when the marker is metadata and otherwise copies the
marker and the segment bytes verbatim, in both cases resuming right after
the segment. -/
theorem C4_jpeg_segment_skip_or_copy :
    (∀ m : Nat, jpeg.is_metadata_marker m = true ↔
      (m = 0xE1 ∨ (0xE2 ≤ m ∧ m ≤ 0xEC) ∨ m = 0xED ∨ m = 0xEF ∨ m = 0xFE)) ∧
    jpeg.is_metadata_marker 0xEE = false ∧
    jpeg.is_metadata_marker 0xE0 = false ∧
    (∀ (data : List Nat) (fuel pos : Nat) (out : List Nat) (marker : Nat),
      pos + 1 < data.length →
      data.getD pos 0 = 0xFF →
      data.getD (pos + 1) 0 = marker →
      marker ≠ 0xFF → marker ≠ 0xD9 → marker ≠ 0xDA →
      jpeg.is_standalone_marker marker = false →
      2 ≤ readBE16 data (pos + 2) →
      pos + 2 + readBE16 data (pos + 2) ≤ data.length →
      jpeg.loop data (fuel + 1) pos out =
        (if jpeg.is_metadata_marker marker then
          jpeg.loop data fuel (pos + 2 + readBE16 data (pos + 2)) out
        else
          jpeg.loop data fuel (pos + 2 + readBE16 data (pos + 2))
            (out ++ [0xFF, marker] ++ bslice data (pos + 2) (pos + 2 + readBE16 data (pos + 2))))) := by
  refine ⟨?_, by decide, by decide, ?_⟩
  · intro m
    unfold jpeg.is_metadata_marker
    split_ifs with h1 h2 h3 h4 h5 <;> simp_all
  · intro data fuel pos out marker hlt hff hm hne heoi hsos hstand hlen2 hend
    have hskip : jpeg.skip_ff data (data.length + 1) pos = pos + 1 :=
      skip_ff_single data pos hlt hff (by rw [hm]; exact hne)
    have hpp : pos + 1 + 1 = pos + 2 := by omega
    conv_lhs => rw [jpeg.loop]
    rw [if_pos (by omega : pos < data.length), if_neg (not_not_intro hff), hskip,
      if_neg (by omega : ¬ data.length ≤ pos + 1), hm,
      if_neg heoi, if_neg hsos, hstand]
    simp only [Bool.false_eq_true, if_false]
    rw [hpp, if_neg (by omega : ¬ data.length < pos + 2 + 2),
      if_neg (by omega : ¬ readBE16 data (pos + 2) < 2),
      if_neg (by omega : ¬ data.length < pos + 2 + readBE16 data (pos + 2))]

/-- Witness for C4's segment step at the concrete JPEG `jpegCex`: the APP1
segment at position 2 is metadata, so the step skips it. -/
theorem C4_jpeg_segment_skip_or_copy_witness :
    jpeg.loop jpegCex 13 2 [0xFF, 0xD8] = jpeg.loop jpegCex 12 12 [0xFF, 0xD8] := by
  have h := C4_jpeg_segment_skip_or_copy.2.2.2 jpegCex 12 2 [0xFF, 0xD8] 0xE1
    (by decide) (by decide) (by decide) (by decide) (by decide) (by decide)
    (by decide) (by decide) (by decide)
  simpa using h

/-! ### C9: format detection -/

/-- C9: `detect_format` returns `none` for buffers shorter than 12 bytes;
for buffers of at least 12 bytes each format is detected exactly on its
magic-byte signature (the signatures' first bytes are pairwise distinct,
so the first-match chain induces genuine equivalences), and when no
signature matches the result is `none`. -/
theorem C9_detect_format_rules (data : List Nat) :
    (data.length < 12 → detect_format data = none) ∧
    (12 ≤ data.length →
      (detect_format data = some .Jpeg ↔ magic.JPEG.isPrefixOf data = true) ∧
      (detect_format data = some .Png ↔ magic.PNG.isPrefixOf data = true) ∧
      (detect_format data = some .Gif ↔
        (magic.GIF87A.isPrefixOf data = true ∨ magic.GIF89A.isPrefixOf data = true)) ∧
      (detect_format data = some .WebP ↔
        (magic.RIFF.isPrefixOf data = true ∧ bslice data 8 12 = magic.WEBP)) ∧
      (detect_format data = some .Tiff ↔
        (magic.TIFF_LE.isPrefixOf data = true ∨ magic.TIFF_BE.isPrefixOf data = true)) ∧
      ((magic.JPEG.isPrefixOf data = false ∧ magic.PNG.isPrefixOf data = false ∧
        magic.GIF87A.isPrefixOf data = false ∧ magic.GIF89A.isPrefixOf data = false ∧
        (magic.RIFF.isPrefixOf data = false ∨ bslice data 8 12 ≠ magic.WEBP) ∧
        magic.TIFF_LE.isPrefixOf data = false ∧ magic.TIFF_BE.isPrefixOf data = false) →
        detect_format data = none)) := by
  have hJ : magic.JPEG.isPrefixOf data = true → data.getD 0 0 = 0xFF :=
    fun h => getD_zero_of_isPrefixOf h
  have hP : magic.PNG.isPrefixOf data = true → data.getD 0 0 = 0x89 :=
    fun h => getD_zero_of_isPrefixOf h
  have hG7 : magic.GIF87A.isPrefixOf data = true → data.getD 0 0 = 0x47 :=
    fun h => getD_zero_of_isPrefixOf h
  have hG9 : magic.GIF89A.isPrefixOf data = true → data.getD 0 0 = 0x47 :=
    fun h => getD_zero_of_isPrefixOf h
  have hR : magic.RIFF.isPrefixOf data = true → data.getD 0 0 = 0x52 :=
    fun h => getD_zero_of_isPrefixOf h
  have hTL : magic.TIFF_LE.isPrefixOf data = true → data.getD 0 0 = 0x49 :=
    fun h => getD_zero_of_isPrefixOf h
  have hTB : magic.TIFF_BE.isPrefixOf data = true → data.getD 0 0 = 0x4D :=
    fun h => getD_zero_of_isPrefixOf h
  have hGor : (magic.GIF87A.isPrefixOf data || magic.GIF89A.isPrefixOf data) = true →
      data.getD 0 0 = 0x47 := by
    intro h
    rw [Bool.or_eq_true] at h
    rcases h with h | h
    · exact hG7 h
    · exact hG9 h
  refine ⟨fun h => by simp [detect_format, h], fun hlen => ?_⟩
  have hnl : ¬ data.length < 12 := by omega
  refine ⟨?_, ?_, ?_, ?_, ?_, ?_⟩
  · constructor
    · intro h
      unfold detect_format at h
      split_ifs at h <;> simp_all
    · intro hp
      unfold detect_format
      rw [if_neg hnl, if_pos hp]
  · constructor
    · intro h
      unfold detect_format at h
      split_ifs at h <;> simp_all
    · intro hp
      unfold detect_format
      rw [if_neg hnl,
        if_neg (fun hj => by have := hJ hj; have := hP hp; omega),
        if_pos hp]
  · constructor
    · intro h
      unfold detect_format at h
      split_ifs at h <;> simp_all
    · intro hp
      have hh : data.getD 0 0 = 0x47 := by
        rcases hp with h | h
        · exact hG7 h
        · exact hG9 h
      unfold detect_format
      rw [if_neg hnl,
        if_neg (fun hj => by have := hJ hj; omega),
        if_neg (fun hq => by have := hP hq; omega),
        if_pos (by rw [Bool.or_eq_true]; exact hp)]
  · constructor
    · intro h
      unfold detect_format at h
      split_ifs at h <;> simp_all
    · intro hp
      have hh : data.getD 0 0 = 0x52 := hR hp.1
      unfold detect_format
      rw [if_neg hnl,
        if_neg (fun hj => by have := hJ hj; omega),
        if_neg (fun hq => by have := hP hq; omega),
        if_neg (fun hg => by have := hGor hg; omega),
        if_pos (by simp [hp.1, hp.2])]
  · constructor
    · intro h
      unfold detect_format at h
      split_ifs at h <;> simp_all
    · intro hp
      have hh : data.getD 0 0 = 0x49 ∨ data.getD 0 0 = 0x4D := by
        rcases hp with h | h
        · exact Or.inl (hTL h)
        · exact Or.inr (hTB h)
      unfold detect_format
      rw [if_neg hnl,
        if_neg (fun hj => by have := hJ hj; omega),
        if_neg (fun hq => by have := hP hq; omega),
        if_neg (fun hg => by have := hGor hg; omega),
        if_neg (fun hw => by
          rw [Bool.and_eq_true] at hw
          have := hR hw.1
          omega),
        if_pos (by rw [Bool.or_eq_true]; exact hp)]
  · intro hnone
    obtain ⟨n1, n2, n3, n4, n5, n6, n7⟩ := hnone
    unfold detect_format
    rw [if_neg hnl,
      if_neg (by simp [n1]),
      if_neg (by simp [n2]),
      if_neg (by simp [n3, n4]),
      if_neg (by
        rcases n5 with n5 | n5 <;> simp [n5]),
      if_neg (by simp [n6, n7])]

/-- Witness for C9 at a 12-byte buffer carrying the PNG signature. -/
theorem C9_detect_format_rules_witness :
    detect_format [0x89, 0x50, 0x4E, 0x47, 0x0D, 0x0A, 0x1A, 0x0A, 0, 0, 0, 0] =
      some .Png :=
  (((C9_detect_format_rules
      [0x89, 0x50, 0x4E, 0x47, 0x0D, 0x0A, 0x1A, 0x0A, 0, 0, 0, 0]).2
    (by decide)).2.1).mpr (by decide)

/-! ### C5: PNG chunk filtering and fresh CRCs -/

/-- C5: the metadata chunk set is exactly {tEXt, zTXt, iTXt, eXIf, tIME}
(and in particular pHYs, iCCP, sRGB, IHDR, PLTE, IDAT, IEND are not
metadata); every re-emitted chunk is written as length ‖ type ‖ data ‖
CRC-32 freshly computed over type ‖ data (the CRC parsed from the input
is discarded at parse time and can never be passed through); and every
successful `png::strip` output is the signature followed by exactly the
non-metadata parsed chunks re-encoded that way. -/
theorem C5_png_metadata_chunks_and_fresh_crc :
    (∀ t : List Nat, png.is_metadata_chunk t = true ↔
      (t = [0x74, 0x45, 0x58, 0x74] ∨ t = [0x7A, 0x54, 0x58, 0x74] ∨
       t = [0x69, 0x54, 0x58, 0x74] ∨ t = [0x65, 0x58, 0x49, 0x66] ∨
       t = [0x74, 0x49, 0x4D, 0x45])) ∧
    png.is_metadata_chunk [0x70, 0x48, 0x59, 0x73] = false ∧
    png.is_metadata_chunk [0x69, 0x43, 0x43, 0x50] = false ∧
    png.is_metadata_chunk [0x73, 0x52, 0x47, 0x42] = false ∧
    png.is_metadata_chunk png.IHDRb = false ∧
    png.is_metadata_chunk [0x50, 0x4C, 0x54, 0x45] = false ∧
    png.is_metadata_chunk [0x49, 0x44, 0x41, 0x54] = false ∧
    png.is_metadata_chunk png.IENDb = false ∧
    (∀ c : png.Chunk, png.chunk_write c =
      beBytes32 c.cdata.length ++ c.ctype ++ c.cdata ++
        beBytes32 (png.crc32 (c.ctype ++ c.cdata))) ∧
    (∀ data out, png.strip data = .ok out → ∃ chunks,
      png.parse_chunks data = .ok chunks ∧
      out = png.PNG_SIGNATURE ++
        (chunks.filter (fun c => ! png.is_metadata_chunk c.ctype)).flatMap png.chunk_write) := by
  refine ⟨?_, by decide, by decide, by decide, by decide, by decide, by decide, by decide,
    fun c => rfl, ?_⟩
  · intro t
    constructor
    · intro h
      simp only [png.is_metadata_chunk, png.METADATA_CHUNKS, List.any_cons, List.any_nil,
        Bool.or_eq_true, beq_iff_eq, Bool.or_false] at h
      rcases h with rfl | rfl | rfl | rfl | rfl <;> simp
    · intro h
      rcases h with rfl | rfl | rfl | rfl | rfl <;> decide
  · intro data out h
    unfold png.strip at h
    split_ifs at h with h1 h2
    split at h
    · cases h
    · rename_i chunks hp
      split_ifs at h with h3 h4
      all_goals injection h with hout
      all_goals exact ⟨chunks, hp, hout.symm⟩

/-- Witness for C5 at a concrete PNG carrying a tEXt chunk. -/
theorem C5_png_metadata_chunks_and_fresh_crc_witness :
    ∃ chunks, png.parse_chunks pngSample = .ok chunks ∧
      pngSampleOut = png.PNG_SIGNATURE ++
        (chunks.filter (fun c => ! png.is_metadata_chunk c.ctype)).flatMap png.chunk_write :=
  C5_png_metadata_chunks_and_fresh_crc.2.2.2.2.2.2.2.2.2 pngSample pngSampleOut (by decide)

/-! ### C8: helper lemmas for PNG idempotence -/

/-- Every `getD` read of a byte buffer stays below 256. -/
theorem getD_lt_256 (data : List Nat) (hb : ∀ b ∈ data, b < 256) (i : Nat) :
    data.getD i 0 < 256 := by
  by_cases h : i < data.length
  · rw [List.getD_eq_getElem data 0 h]
    exact hb _ (List.getElem_mem h)
  · rw [List.getD_eq_default data 0 (by omega)]
    omega

/-- A big-endian 32-bit read of a byte buffer is below `2^32`. -/
theorem readBE32_lt (data : List Nat) (hb : ∀ b ∈ data, b < 256) (pos : Nat) :
    readBE32 data pos < 4294967296 := by
  have h0 := getD_lt_256 data hb pos
  have h1 := getD_lt_256 data hb (pos + 1)
  have h2 := getD_lt_256 data hb (pos + 2)
  have h3 := getD_lt_256 data hb (pos + 3)
  unfold readBE32
  omega

/-- Reading elements of the suffix of an append through `getD`. -/
theorem getD_append_off (pre x : List Nat) (i : Nat) :
    (pre ++ x).getD (pre.length + i) 0 = x.getD i 0 := by
  rw [List.getD_append_right pre x 0 (pre.length + i) (by omega)]
  congr 1
  omega

/-- Decoding a big-endian encoded length written right after a known
prefix recovers the encoded value. -/
theorem readBE32_at_append (pre rest : List Nat) (n : Nat) (hn : n < 4294967296) :
    readBE32 (pre ++ (beBytes32 n ++ rest)) pre.length = n := by
  have g0 : (pre ++ (beBytes32 n ++ rest)).getD pre.length 0 =
      (beBytes32 n ++ rest).getD 0 0 := by
    have := getD_append_off pre (beBytes32 n ++ rest) 0
    simpa using this
  have g1 := getD_append_off pre (beBytes32 n ++ rest) 1
  have g2 := getD_append_off pre (beBytes32 n ++ rest) 2
  have g3 := getD_append_off pre (beBytes32 n ++ rest) 3
  unfold readBE32
  rw [g0, g1, g2, g3]
  simp only [beBytes32, List.cons_append, List.getD_cons_zero, List.getD_cons_succ]
  omega

/-- Length of a `bslice` whose bounds are inside the buffer. -/
theorem bslice_length (l : List Nat) (a b : Nat) (hb : b ≤ l.length) (hab : a ≤ b) :
    (bslice l a b).length = b - a := by
  unfold bslice
  rw [List.length_take, List.length_drop]
  omega

/-- Length of one written PNG chunk. -/
theorem chunk_write_length (c : png.Chunk) (hct : c.ctype.length = 4) :
    (png.chunk_write c).length = 12 + c.cdata.length := by
  simp [png.chunk_write, beBytes32, hct]
  omega

/-- A chunk list is never longer than its written byte stream. -/
theorem flatMap_write_length_ge (l : List png.Chunk) :
    l.length ≤ (l.flatMap png.chunk_write).length := by
  induction l with
  | nil => simp
  | cons c cs ih =>
    rw [List.flatMap_cons, List.length_append]
    have : 4 ≤ (png.chunk_write c).length := by
      simp [png.chunk_write, beBytes32]
    simp only [List.length_cons]
    omega

/-- Parsing one written chunk at the head of the remaining stream: the
loop consumes exactly the chunk's `12 + data length` bytes, recovers the
chunk, stops on IEND and recurses otherwise. -/
theorem parse_loop_write_step (pre rest : List Nat) (c : png.Chunk) (fuel : Nat)
    (hct : c.ctype.length = 4) (hn : c.cdata.length < 4294967296) :
    png.parse_loop (pre ++ (png.chunk_write c ++ rest)) (fuel + 1) pre.length =
      (if c.ctype = png.IENDb then .ok [c]
       else
        match png.parse_loop (pre ++ (png.chunk_write c ++ rest)) fuel
            (pre.length + 12 + c.cdata.length) with
        | .error e => .error e
        | .ok cs => .ok (c :: cs)) := by
  obtain ⟨ct, cd⟩ := c
  simp only at hct hn ⊢
  have hwshape : png.chunk_write ⟨ct, cd⟩ ++ rest =
      beBytes32 cd.length ++ (ct ++ (cd ++ (beBytes32 (png.crc32 (ct ++ cd)) ++ rest))) := by
    simp [png.chunk_write, List.append_assoc]
  rw [hwshape]
  have hdl : (pre ++ (beBytes32 cd.length ++
      (ct ++ (cd ++ (beBytes32 (png.crc32 (ct ++ cd)) ++ rest))))).length =
      pre.length + 12 + cd.length + rest.length := by
    simp [beBytes32, hct]
    omega
  have hread : readBE32 (pre ++ (beBytes32 cd.length ++
      (ct ++ (cd ++ (beBytes32 (png.crc32 (ct ++ cd)) ++ rest))))) pre.length = cd.length :=
    readBE32_at_append pre _ cd.length hn
  have hctype : bslice (pre ++ (beBytes32 cd.length ++
      (ct ++ (cd ++ (beBytes32 (png.crc32 (ct ++ cd)) ++ rest)))))
      (pre.length + 4) (pre.length + 4 + 4) = ct := by
    have h := bslice_append_mid (pre ++ beBytes32 cd.length) ct
      (cd ++ (beBytes32 (png.crc32 (ct ++ cd)) ++ rest))
    rw [List.append_assoc] at h
    rwa [show (pre ++ beBytes32 cd.length).length = pre.length + 4 by
        simp [beBytes32], hct] at h
  have hcdata : bslice (pre ++ (beBytes32 cd.length ++
      (ct ++ (cd ++ (beBytes32 (png.crc32 (ct ++ cd)) ++ rest)))))
      (pre.length + 8) (pre.length + 8 + cd.length) = cd := by
    have h := bslice_append_mid (pre ++ beBytes32 cd.length ++ ct) cd
      (beBytes32 (png.crc32 (ct ++ cd)) ++ rest)
    rw [List.append_assoc, List.append_assoc] at h
    rwa [show (pre ++ beBytes32 cd.length ++ ct).length = pre.length + 8 by
        simp [beBytes32, hct]] at h
  conv_lhs => rw [png.parse_loop]
  rw [if_pos (by omega : pre.length <
    (pre ++ (beBytes32 cd.length ++
      (ct ++ (cd ++ (beBytes32 (png.crc32 (ct ++ cd)) ++ rest))))).length)]
  rw [if_neg (by omega : ¬ (pre ++ (beBytes32 cd.length ++
      (ct ++ (cd ++ (beBytes32 (png.crc32 (ct ++ cd)) ++ rest))))).length < pre.length + 4)]
  rw [if_neg (by omega : ¬ (pre ++ (beBytes32 cd.length ++
      (ct ++ (cd ++ (beBytes32 (png.crc32 (ct ++ cd)) ++ rest))))).length < pre.length + 8)]
  rw [hread]
  rw [if_neg (by omega : ¬ (pre ++ (beBytes32 cd.length ++
      (ct ++ (cd ++ (beBytes32 (png.crc32 (ct ++ cd)) ++ rest))))).length <
      pre.length + 8 + cd.length)]
  rw [if_neg (by omega : ¬ (pre ++ (beBytes32 cd.length ++
      (ct ++ (cd ++ (beBytes32 (png.crc32 (ct ++ cd)) ++ rest))))).length <
      pre.length + 8 + cd.length + 4)]
  rw [show pre.length + 8 = pre.length + 4 + 4 by omega] at hctype ⊢
  rw [hctype]
  rw [show pre.length + 4 + 4 = pre.length + 8 by omega]
  rw [hcdata]

/-- Re-parsing a written chunk stream (non-IEND chunks followed by one
IEND chunk) recovers exactly the chunk list. -/
theorem parse_loop_roundtrip (cs₀ : List png.Chunk) (cl : png.Chunk) :
    ∀ (pre : List Nat) (fuel : Nat),
    (∀ c ∈ cs₀ ++ [cl], c.ctype.length = 4 ∧ c.cdata.length < 4294967296) →
    (∀ c ∈ cs₀, c.ctype ≠ png.IENDb) →
    cl.ctype = png.IENDb →
    cs₀.length < fuel →
    png.parse_loop (pre ++ (cs₀ ++ [cl]).flatMap png.chunk_write) fuel pre.length =
      .ok (cs₀ ++ [cl]) := by
  induction cs₀ with
  | nil =>
    intro pre fuel hwf hni hl hfuel
    obtain ⟨f, rfl⟩ : ∃ f, fuel = f + 1 := ⟨fuel - 1, by omega⟩
    have hw := hwf cl (by simp)
    simp only [List.nil_append, List.flatMap_cons, List.flatMap_nil]
    rw [parse_loop_write_step pre [] cl f hw.1 hw.2, if_pos hl]
  | cons c cs ih =>
    intro pre fuel hwf hni hl hfuel
    obtain ⟨f, rfl⟩ : ∃ f, fuel = f + 1 := ⟨fuel - 1, by omega⟩
    have hw := hwf c (by simp)
    simp only [List.cons_append, List.flatMap_cons, List.length_cons] at hfuel ⊢
    rw [parse_loop_write_step pre ((cs ++ [cl]).flatMap png.chunk_write) c f hw.1 hw.2]
    rw [if_neg (hni c (by simp))]
    have hrec := ih (pre ++ png.chunk_write c) f
      (fun x hx => hwf x (by
        simp only [List.cons_append, List.mem_cons]
        exact Or.inr (by simpa using hx)))
      (fun x hx => hni x (by simp [hx]))
      hl (by omega)
    rw [List.append_assoc] at hrec
    rw [show (pre ++ png.chunk_write c).length = pre.length + 12 + c.cdata.length by
      rw [List.length_append, chunk_write_length c hw.1]; omega] at hrec
    rw [hrec]

/-- Every chunk produced by the parse loop of a byte buffer has a 4-byte
type and a data length below `2^32`. -/
theorem parse_loop_wf (data : List Nat) (hb : ∀ b ∈ data, b < 256) :
    ∀ (fuel pos : Nat) (cs : List png.Chunk),
    png.parse_loop data fuel pos = .ok cs →
    ∀ c ∈ cs, c.ctype.length = 4 ∧ c.cdata.length < 4294967296 := by
  intro fuel
  induction fuel with
  | zero =>
    intro pos cs h
    simp [png.parse_loop] at h
  | succ f ih =>
    intro pos cs h
    have hlt := readBE32_lt data hb pos
    unfold png.parse_loop at h
    split_ifs at h with h1 h2 h3 h4 h5 h6
    · cases h
      intro c hc
      simp only [List.mem_singleton] at hc
      subst hc
      constructor
      · rw [bslice_length data (pos + 4) (pos + 8) (by omega) (by omega)]
        omega
      · rw [bslice_length data (pos + 8) (pos + 8 + readBE32 data pos) (by omega) (by omega)]
        omega
    · split at h
      · cases h
      · rename_i rest hrec
        cases h
        intro c hc
        rcases List.mem_cons.mp hc with rfl | hc
        · constructor
          · rw [bslice_length data (pos + 4) (pos + 8) (by omega) (by omega)]
            omega
          · rw [bslice_length data (pos + 8) (pos + 8 + readBE32 data pos) (by omega) (by omega)]
            omega
        · exact ih _ _ hrec c hc
    · cases h
      intro c hc
      simp at hc

/-- A successful parse containing an IEND chunk splits as non-IEND chunks
followed by one final IEND chunk (the loop stops at the first IEND). -/
theorem parse_loop_shape (data : List Nat) :
    ∀ (fuel pos : Nat) (cs : List png.Chunk),
    png.parse_loop data fuel pos = .ok cs →
    (∃ c ∈ cs, c.ctype = png.IENDb) →
    ∃ cs₀ cl, cs = cs₀ ++ [cl] ∧ cl.ctype = png.IENDb ∧
      ∀ c ∈ cs₀, c.ctype ≠ png.IENDb := by
  intro fuel
  induction fuel with
  | zero =>
    intro pos cs h
    simp [png.parse_loop] at h
  | succ f ih =>
    intro pos cs h hmem
    unfold png.parse_loop at h
    split_ifs at h with h1 h2 h3 h4 h5 h6
    · cases h
      exact ⟨[], _, rfl, h6, by simp⟩
    · split at h
      · cases h
      · rename_i rest hrec
        cases h
        obtain ⟨c, hc, hce⟩ := hmem
        rcases List.mem_cons.mp hc with rfl | hc
        · exact absurd hce h6
        · obtain ⟨cs₀, cl, rfl, hcl, hni⟩ := ih _ _ hrec ⟨c, hc, hce⟩
          refine ⟨_ :: cs₀, cl, rfl, hcl, ?_⟩
          intro x hx
          rcases List.mem_cons.mp hx with rfl | hx
          · exact h6
          · exact hni x hx
    · cases h
      obtain ⟨c, hc, _⟩ := hmem
      simp at hc

/-- Stripping is idempotent for the PNG codec: for every byte buffer
dispatched to the PNG codec on which `strip_metadata` succeeds, applying
`strip_metadata` again to the returned data succeeds, returns the same
bytes, and removes zero additional bytes. -/
theorem png_strip_metadata_idempotent (data : List Nat)
    (hb : ∀ b ∈ data, b < 256) (r₁ : StripResult)
    (h1 : strip_metadata data = .ok r₁)
    (hfmt : detect_format data = some .Png) :
    strip_metadata r₁.data = .ok ⟨r₁.data, 0⟩ := by
  unfold strip_metadata at h1
  rw [hfmt] at h1
  dsimp only at h1
  cases hstrip : png.strip data with
  | error e => rw [hstrip] at h1; cases h1
  | ok out =>
    rw [hstrip] at h1
    dsimp only at h1
    cases h1
    dsimp only
    -- dissect the successful strip
    unfold png.strip at hstrip
    split_ifs at hstrip with hlen8 hsig
    split at hstrip
    · cases hstrip
    · rename_i chunks hp
      split_ifs at hstrip with hihdr hiend
      all_goals injection hstrip with hout
      subst hout
      unfold png.parse_chunks at hp
      -- facts about the parsed chunks
      have hwf := parse_loop_wf data hb _ 8 chunks hp
      have hiend' : ∃ c ∈ chunks, c.ctype = png.IENDb := by
        obtain ⟨c, hc, hcb⟩ := List.any_eq_true.mp hiend
        exact ⟨c, hc, beq_iff_eq.mp hcb⟩
      obtain ⟨cs₀, cl, rfl, hcl, hni⟩ := parse_loop_shape data _ 8 _ hp hiend'
      have hclkeep : png.is_metadata_chunk png.IENDb = false := by decide
      have hBfilter : (cs₀ ++ [cl]).filter (fun c => !png.is_metadata_chunk c.ctype) =
          cs₀.filter (fun c => !png.is_metadata_chunk c.ctype) ++ [cl] := by
        rw [List.filter_append]
        congr 1
        simp [List.filter, hcl, hclkeep]
      rw [hBfilter]
      set cs₀f := cs₀.filter (fun c => !png.is_metadata_chunk c.ctype) with hcs0f
      set body := (cs₀f ++ [cl]).flatMap png.chunk_write with hbody
      -- length bookkeeping
      have hwcl : (png.chunk_write cl).length = 12 + cl.cdata.length :=
        chunk_write_length cl (hwf cl (by simp)).1
      have hbody12 : 12 ≤ body.length := by
        rw [hbody, List.flatMap_append]
        simp only [List.length_append, List.flatMap_cons, List.flatMap_nil,
          List.length_append, List.length_nil]
        omega
      have hBlen : (cs₀f ++ [cl]).length ≤ body.length := by
        rw [hbody]
        exact flatMap_write_length_ge _
      have houtlen : (png.PNG_SIGNATURE ++ body).length = 8 + body.length := by
        simp [png.PNG_SIGNATURE]
        omega
      -- re-parsing the output recovers the filtered chunks
      have hwfB : ∀ c ∈ cs₀f ++ [cl], c.ctype.length = 4 ∧ c.cdata.length < 4294967296 := by
        intro c hc
        rcases List.mem_append.mp hc with hc | hc
        · exact hwf c (List.mem_append.mpr (Or.inl (List.mem_filter.mp hc).1))
        · exact hwf c (List.mem_append.mpr (Or.inr hc))
      have hniB : ∀ c ∈ cs₀f, c.ctype ≠ png.IENDb :=
        fun c hc => hni c (List.mem_filter.mp hc).1
      have hrt := parse_loop_roundtrip cs₀f cl png.PNG_SIGNATURE
        ((png.PNG_SIGNATURE ++ body).length + 1) hwfB hniB hcl
        (by
          have := hBlen
          simp only [List.length_append] at this ⊢
          omega)
      rw [show png.PNG_SIGNATURE.length = 8 from rfl, ← hbody] at hrt
      -- the second detection
      have hjp : magic.JPEG.isPrefixOf (png.PNG_SIGNATURE ++ body) = false := by
        simp [magic.JPEG, png.PNG_SIGNATURE, List.isPrefixOf]
      have hpp : magic.PNG.isPrefixOf (png.PNG_SIGNATURE ++ body) = true :=
        isPrefixOf_self_append magic.PNG body
      have hfmt2 : detect_format (png.PNG_SIGNATURE ++ body) = some .Png := by
        unfold detect_format
        rw [if_neg (by rw [houtlen]; omega)]
        rw [hjp, hpp]
        simp
      -- the second strip
      have hihdrB : ((cs₀f ++ [cl]).any fun c => c.ctype == png.IHDRb) = true := by
        obtain ⟨c, hc, hcb⟩ := List.any_eq_true.mp hihdr
        have hct : c.ctype = png.IHDRb := beq_iff_eq.mp hcb
        have hckeep : (!png.is_metadata_chunk c.ctype) = true := by
          rw [hct]
          decide
        refine List.any_eq_true.mpr ⟨c, ?_, hcb⟩
        rcases List.mem_append.mp hc with hc | hc
        · exact List.mem_append.mpr (Or.inl (List.mem_filter.mpr ⟨hc, hckeep⟩))
        · exact List.mem_append.mpr (Or.inr hc)
      have hiendB : ((cs₀f ++ [cl]).any fun c => c.ctype == png.IENDb) = true :=
        List.any_eq_true.mpr ⟨cl, List.mem_append.mpr (Or.inr (by simp)),
          beq_iff_eq.mpr hcl⟩
      have hBB : (cs₀f ++ [cl]).filter (fun c => !png.is_metadata_chunk c.ctype) =
          cs₀f ++ [cl] := by
        rw [List.filter_append, hcs0f, List.filter_filter]
        simp only [Bool.and_self]
        simp [List.filter, hcl, hclkeep]
      have hstrip2 : png.strip (png.PNG_SIGNATURE ++ body) = .ok (png.PNG_SIGNATURE ++ body) := by
        unfold png.strip
        rw [if_neg (by rw [houtlen]; omega)]
        rw [if_neg (not_not_intro (isPrefixOf_self_append png.PNG_SIGNATURE body))]
        unfold png.parse_chunks
        rw [houtlen, show 8 + body.length + 1 = (png.PNG_SIGNATURE ++ body).length + 1 by
          rw [houtlen]]
        rw [hrt]
        dsimp only
        rw [if_neg (not_not_intro hihdrB), if_neg (not_not_intro hiendB)]
        rw [hBB, ← hbody]
      -- assemble
      unfold strip_metadata
      rw [hfmt2]
      dsimp only
      rw [hstrip2]
      dsimp only
      rw [Nat.sub_self]

/-! ### C8: helper lemmas for WebP idempotence -/

/-- A little-endian 32-bit read of a byte buffer is below `2^32`. -/
theorem readLE32_lt (data : List Nat) (hb : ∀ b ∈ data, b < 256) (pos : Nat) :
    readLE32 data pos < 4294967296 := by
  have h0 := getD_lt_256 data hb pos
  have h1 := getD_lt_256 data hb (pos + 1)
  have h2 := getD_lt_256 data hb (pos + 2)
  have h3 := getD_lt_256 data hb (pos + 3)
  unfold readLE32
  omega

/-- Decoding a little-endian encoded length written right after a known
prefix recovers the encoded value. -/
theorem readLE32_at_append (pre rest : List Nat) (n : Nat) (hn : n < 4294967296) :
    readLE32 (pre ++ (leBytes32 n ++ rest)) pre.length = n := by
  have g0 : (pre ++ (leBytes32 n ++ rest)).getD pre.length 0 =
      (leBytes32 n ++ rest).getD 0 0 := by
    have := getD_append_off pre (leBytes32 n ++ rest) 0
    simpa using this
  have g1 := getD_append_off pre (leBytes32 n ++ rest) 1
  have g2 := getD_append_off pre (leBytes32 n ++ rest) 2
  have g3 := getD_append_off pre (leBytes32 n ++ rest) 3
  unfold readLE32
  rw [g0, g1, g2, g3]
  simp only [leBytes32, List.cons_append, List.getD_cons_zero, List.getD_cons_succ]
  omega

/-- Length of one written WebP chunk (data plus even-padding). -/
theorem webp_chunk_write_length (c : webp.Chunk) (hct : c.fourcc.length = 4) :
    (webp.chunk_write c).length = 8 + c.cdata.length + c.cdata.length % 2 := by
  unfold webp.chunk_write
  split_ifs with h
  · simp [leBytes32, hct]
    omega
  · simp [leBytes32, hct]
    omega

/-- A WebP chunk list is never longer than its written byte stream. -/
theorem webp_flatMap_write_length_ge (l : List webp.Chunk) :
    l.length ≤ (l.flatMap webp.chunk_write).length := by
  induction l with
  | nil => simp
  | cons c cs ih =>
    rw [List.flatMap_cons, List.length_append]
    have : 4 ≤ (webp.chunk_write c).length := by
      unfold webp.chunk_write
      split_ifs <;> (simp [leBytes32]; omega)
    simp only [List.length_cons]
    omega

/-- Parsing one written chunk at the head of the remaining stream: the
loop consumes the chunk's `8 + data length + padding` bytes, recovers the
chunk and recurses. -/
theorem webp_parse_loop_write_step (pre rest : List Nat) (c : webp.Chunk) (fuel : Nat)
    (hct : c.fourcc.length = 4) (hn : c.cdata.length < 4294967296) :
    webp.parse_loop (pre ++ (webp.chunk_write c ++ rest)) (fuel + 1) pre.length =
      (match webp.parse_loop (pre ++ (webp.chunk_write c ++ rest)) fuel
          (pre.length + 8 + c.cdata.length + c.cdata.length % 2) with
       | .error e => .error e
       | .ok cs => .ok (c :: cs)) := by
  obtain ⟨fc, cd⟩ := c
  simp only at hct hn ⊢
  have hwshape : webp.chunk_write ⟨fc, cd⟩ ++ rest =
      fc ++ (leBytes32 cd.length ++
        (cd ++ ((if cd.length % 2 ≠ 0 then [0] else []) ++ rest))) := by
    simp [webp.chunk_write, List.append_assoc]
  rw [hwshape]
  have hpadlen : (if cd.length % 2 ≠ 0 then ([0] : List Nat) else []).length =
      cd.length % 2 := by
    split_ifs with h <;> simp <;> omega
  have hdl : (pre ++ (fc ++ (leBytes32 cd.length ++
      (cd ++ ((if cd.length % 2 ≠ 0 then [0] else []) ++ rest))))).length =
      pre.length + 8 + cd.length + cd.length % 2 + rest.length := by
    simp only [List.length_append, hpadlen, leBytes32, List.length_cons,
      List.length_nil, hct]
    omega
  have hread : readLE32 (pre ++ (fc ++ (leBytes32 cd.length ++
      (cd ++ ((if cd.length % 2 ≠ 0 then [0] else []) ++ rest))))) (pre.length + 4) =
      cd.length := by
    have h := readLE32_at_append (pre ++ fc)
      (cd ++ ((if cd.length % 2 ≠ 0 then [0] else []) ++ rest)) cd.length hn
    rw [List.append_assoc] at h
    rwa [show (pre ++ fc).length = pre.length + 4 by simp [hct]] at h
  have hfourcc : bslice (pre ++ (fc ++ (leBytes32 cd.length ++
      (cd ++ ((if cd.length % 2 ≠ 0 then [0] else []) ++ rest)))))
      pre.length (pre.length + 4) = fc := by
    have h := bslice_append_mid pre fc
      (leBytes32 cd.length ++ (cd ++ ((if cd.length % 2 ≠ 0 then [0] else []) ++ rest)))
    rwa [hct] at h
  have hcdata : bslice (pre ++ (fc ++ (leBytes32 cd.length ++
      (cd ++ ((if cd.length % 2 ≠ 0 then [0] else []) ++ rest)))))
      (pre.length + 8) (pre.length + 8 + cd.length) = cd := by
    have h := bslice_append_mid (pre ++ fc ++ leBytes32 cd.length) cd
      ((if cd.length % 2 ≠ 0 then [0] else []) ++ rest)
    rw [List.append_assoc, List.append_assoc] at h
    rwa [show (pre ++ fc ++ leBytes32 cd.length).length = pre.length + 8 by
      simp [leBytes32, hct]] at h
  conv_lhs => rw [webp.parse_loop]
  rw [hdl, hread, hfourcc, hcdata]
  rw [if_pos (by omega : pre.length <
    pre.length + 8 + cd.length + cd.length % 2 + rest.length)]
  rw [if_neg (by omega :
    ¬ pre.length + 8 + cd.length + cd.length % 2 + rest.length < pre.length + 4)]
  rw [if_neg (by omega :
    ¬ pre.length + 8 + cd.length + cd.length % 2 + rest.length < pre.length + 8)]
  rw [if_neg (by omega :
    ¬ pre.length + 8 + cd.length + cd.length % 2 + rest.length < pre.length + 8 + cd.length)]
  rw [show pre.length + 8 + (cd.length + 1) / 2 * 2 =
    pre.length + 8 + cd.length + cd.length % 2 by omega]

/-- Re-parsing a written WebP chunk stream recovers exactly the chunk
list. -/
theorem webp_parse_loop_roundtrip (cs : List webp.Chunk) :
    ∀ (pre : List Nat) (fuel : Nat),
    (∀ c ∈ cs, c.fourcc.length = 4 ∧ c.cdata.length < 4294967296) →
    cs.length < fuel →
    webp.parse_loop (pre ++ cs.flatMap webp.chunk_write) fuel pre.length = .ok cs := by
  induction cs with
  | nil =>
    intro pre fuel hwf hfuel
    obtain ⟨f, rfl⟩ : ∃ f, fuel = f + 1 := ⟨fuel - 1, by omega⟩
    simp only [List.flatMap_nil, List.append_nil]
    conv_lhs => rw [webp.parse_loop]
    rw [if_neg (by omega : ¬ pre.length < pre.length)]
  | cons c cs' ih =>
    intro pre fuel hwf hfuel
    obtain ⟨f, rfl⟩ : ∃ f, fuel = f + 1 := ⟨fuel - 1, by omega⟩
    have hw := hwf c (by simp)
    simp only [List.flatMap_cons, List.length_cons] at hfuel ⊢
    rw [← List.append_assoc]
    have hstep := webp_parse_loop_write_step pre (cs'.flatMap webp.chunk_write) c f hw.1 hw.2
    rw [← List.append_assoc] at hstep
    rw [hstep]
    have hrec := ih (pre ++ webp.chunk_write c) f
      (fun x hx => hwf x (List.mem_cons_of_mem c hx)) (by omega)
    rw [List.append_assoc] at hrec
    rw [show (pre ++ webp.chunk_write c).length =
        pre.length + 8 + c.cdata.length + c.cdata.length % 2 by
      rw [List.length_append, webp_chunk_write_length c hw.1]; omega] at hrec
    rw [← List.append_assoc] at hrec
    rw [hrec]

/-- Every chunk produced by the WebP parse loop of a byte buffer has a
4-byte fourcc and a data length below `2^32`. -/
theorem webp_parse_loop_wf (data : List Nat) (hb : ∀ b ∈ data, b < 256) :
    ∀ (fuel pos : Nat) (cs : List webp.Chunk),
    webp.parse_loop data fuel pos = .ok cs →
    ∀ c ∈ cs, c.fourcc.length = 4 ∧ c.cdata.length < 4294967296 := by
  intro fuel
  induction fuel with
  | zero =>
    intro pos cs h
    simp [webp.parse_loop] at h
  | succ f ih =>
    intro pos cs h
    have hlt := readLE32_lt data hb (pos + 4)
    unfold webp.parse_loop at h
    split_ifs at h with h1 h2 h3 h4
    · cases h
      intro c hc
      simp at hc
    · split at h
      · cases h
      · rename_i rest hrec
        cases h
        intro c hc
        rcases List.mem_cons.mp hc with rfl | hc
        · constructor
          · rw [bslice_length data pos (pos + 4) (by omega) (by omega)]
            omega
          · rw [bslice_length data (pos + 8) (pos + 8 + readLE32 data (pos + 4))
              (by omega) (by omega)]
            omega
        · exact ih _ _ hrec c hc
    · cases h
      intro c hc
      simp at hc

/-- `update_vp8x_flags` preserves the data length. -/
theorem update_vp8x_length (d : List Nat) :
    (webp.update_vp8x_flags d).length = d.length := by
  unfold webp.update_vp8x_flags
  split_ifs with h
  · rfl
  · cases d <;> simp

/-- `update_vp8x_flags` is idempotent. -/
theorem update_vp8x_idem (d : List Nat) :
    webp.update_vp8x_flags (webp.update_vp8x_flags d) = webp.update_vp8x_flags d := by
  by_cases h : d.length < 4
  · have hd : webp.update_vp8x_flags d = d := by
      unfold webp.update_vp8x_flags
      rw [if_pos h]
    rw [hd, hd]
  · rw [Nat.not_lt] at h
    match d, h with
    | b :: rest, h =>
      have h1 : webp.update_vp8x_flags (b :: rest) = (b &&& 0xD7) :: rest := by
        unfold webp.update_vp8x_flags
        rw [if_neg (by simp only [List.length_cons] at h ⊢; omega)]
      rw [h1]
      have h2 : webp.update_vp8x_flags ((b &&& 0xD7) :: rest) =
          ((b &&& 0xD7) &&& 0xD7) :: rest := by
        unfold webp.update_vp8x_flags
        rw [if_neg (by simp only [List.length_cons] at h ⊢; omega)]
      rw [h2, Nat.land_assoc, show (0xD7 &&& 0xD7 : Nat) = 0xD7 by decide]

/-- Re-emission preserves the fourcc. -/
theorem emitted_chunk_fourcc (c : webp.Chunk) :
    (webp.emitted_chunk c).fourcc = c.fourcc := by
  unfold webp.emitted_chunk
  split_ifs <;> rfl

/-- Re-emission preserves the data length. -/
theorem emitted_chunk_cdata_length (c : webp.Chunk) :
    (webp.emitted_chunk c).cdata.length = c.cdata.length := by
  unfold webp.emitted_chunk
  split_ifs <;> simp [update_vp8x_length]

/-- Re-emission is idempotent on chunks. -/
theorem emitted_chunk_idem (c : webp.Chunk) :
    webp.emitted_chunk (webp.emitted_chunk c) = webp.emitted_chunk c := by
  by_cases h : (c.fourcc == webp.VP8Xcc) = true
  · have h1 : webp.emitted_chunk c = ⟨c.fourcc, webp.update_vp8x_flags c.cdata⟩ := by
      unfold webp.emitted_chunk
      rw [if_pos h]
    rw [h1]
    unfold webp.emitted_chunk
    rw [if_pos h]
    dsimp only
    rw [update_vp8x_idem]
  · have h1 : webp.emitted_chunk c = c := by
      unfold webp.emitted_chunk
      rw [if_neg h]
    rw [h1, h1]

/-- The emitted bytes of one chunk are the written form of its re-emitted
chunk. -/
theorem emit_chunk_eq (c : webp.Chunk) :
    webp.emit_chunk c = webp.chunk_write (webp.emitted_chunk c) := by
  unfold webp.emit_chunk webp.emitted_chunk
  by_cases h : (c.fourcc == webp.VP8Xcc) = true
  · rw [if_pos h, if_pos h]
  · rw [if_neg h, if_neg h]

/-- Emitting a chunk list writes the re-emitted chunks. -/
theorem flatMap_emit_eq (l : List webp.Chunk) :
    l.flatMap webp.emit_chunk = (l.map webp.emitted_chunk).flatMap webp.chunk_write := by
  induction l with
  | nil => rfl
  | cons c cs ih => simp only [List.flatMap_cons, List.map_cons, ih, emit_chunk_eq]

/-- The output chunk stream of `webp::strip` is the written form of the
re-emitted retained chunks. -/
theorem emit_chunks_eq (l : List webp.Chunk) :
    webp.emit_chunks l =
      ((l.filter (fun c => ! webp.is_metadata_chunk c.fourcc)).map
        webp.emitted_chunk).flatMap webp.chunk_write := by
  unfold webp.emit_chunks
  exact flatMap_emit_eq _

/-- Stripping is idempotent for the WebP codec: for every byte buffer
dispatched to the WebP codec on which `strip_metadata` succeeds, applying
`strip_metadata` again to the returned data succeeds, returns the same
bytes, and removes zero additional bytes. -/
theorem webp_strip_metadata_idempotent (data : List Nat)
    (hb : ∀ b ∈ data, b < 256) (r₁ : StripResult)
    (h1 : strip_metadata data = .ok r₁)
    (hfmt : detect_format data = some .WebP) :
    strip_metadata r₁.data = .ok ⟨r₁.data, 0⟩ := by
  unfold strip_metadata at h1
  rw [hfmt] at h1
  dsimp only at h1
  cases hstrip : webp.strip data with
  | error e => rw [hstrip] at h1; cases h1
  | ok out =>
    rw [hstrip] at h1
    dsimp only at h1
    cases h1
    dsimp only
    unfold webp.strip at hstrip
    split_ifs at hstrip with hlen hriff hwebp
    split at hstrip
    · cases hstrip
    · rename_i chunks hp
      split_ifs at hstrip with himg
      · injection hstrip with hout
        subst hout
        unfold webp.parse_chunks at hp
        have hwf := webp_parse_loop_wf data hb _ 12 chunks hp
        -- the re-emitted chunk list
        have hwfT : ∀ c ∈ (chunks.filter fun c => ! webp.is_metadata_chunk c.fourcc).map
            webp.emitted_chunk, c.fourcc.length = 4 ∧ c.cdata.length < 4294967296 := by
          intro c hc
          obtain ⟨c₀, hc₀, rfl⟩ := List.mem_map.mp hc
          have h₀ := hwf c₀ (List.mem_filter.mp hc₀).1
          rw [emitted_chunk_fourcc, emitted_chunk_cdata_length]
          exact h₀
        have hbodyT : webp.emit_chunks chunks =
            ((chunks.filter fun c => ! webp.is_metadata_chunk c.fourcc).map
              webp.emitted_chunk).flatMap webp.chunk_write := emit_chunks_eq chunks
        have hTlen : ((chunks.filter fun c => ! webp.is_metadata_chunk c.fourcc).map
            webp.emitted_chunk).length ≤ (webp.emit_chunks chunks).length := by
          rw [hbodyT]
          exact webp_flatMap_write_length_ge _
        have houtlen : (webp.RIFF ++ leBytes32 ((webp.emit_chunks chunks).length + 4) ++
            webp.WEBP ++ webp.emit_chunks chunks).length =
            12 + (webp.emit_chunks chunks).length := by
          simp [webp.RIFF, webp.WEBP, leBytes32]
          omega
        have hpre12 : (webp.RIFF ++ leBytes32 ((webp.emit_chunks chunks).length + 4) ++
            webp.WEBP).length = 12 := by
          simp [webp.RIFF, webp.WEBP, leBytes32]
        -- re-parsing the output recovers the re-emitted chunks
        have hrt := webp_parse_loop_roundtrip
          ((chunks.filter fun c => ! webp.is_metadata_chunk c.fourcc).map webp.emitted_chunk)
          (webp.RIFF ++ leBytes32 ((webp.emit_chunks chunks).length + 4) ++ webp.WEBP)
          ((webp.RIFF ++ leBytes32 ((webp.emit_chunks chunks).length + 4) ++
            webp.WEBP ++ webp.emit_chunks chunks).length + 1)
          hwfT (by rw [houtlen]; omega)
        rw [hpre12, ← hbodyT, List.append_assoc] at hrt
        rw [← List.append_assoc] at hrt
        -- second detection
        have hriffp : webp.RIFF.isPrefixOf
            (webp.RIFF ++ leBytes32 ((webp.emit_chunks chunks).length + 4) ++
              webp.WEBP ++ webp.emit_chunks chunks) = true := by
          rw [List.append_assoc, List.append_assoc]
          exact isPrefixOf_self_append _ _
        have hjp : magic.JPEG.isPrefixOf
            (webp.RIFF ++ leBytes32 ((webp.emit_chunks chunks).length + 4) ++
              webp.WEBP ++ webp.emit_chunks chunks) = false := by
          simp [magic.JPEG, webp.RIFF, List.isPrefixOf]
        have hpng : magic.PNG.isPrefixOf
            (webp.RIFF ++ leBytes32 ((webp.emit_chunks chunks).length + 4) ++
              webp.WEBP ++ webp.emit_chunks chunks) = false := by
          simp [magic.PNG, webp.RIFF, List.isPrefixOf]
        have hg87 : magic.GIF87A.isPrefixOf
            (webp.RIFF ++ leBytes32 ((webp.emit_chunks chunks).length + 4) ++
              webp.WEBP ++ webp.emit_chunks chunks) = false := by
          simp [magic.GIF87A, webp.RIFF, List.isPrefixOf]
        have hg89 : magic.GIF89A.isPrefixOf
            (webp.RIFF ++ leBytes32 ((webp.emit_chunks chunks).length + 4) ++
              webp.WEBP ++ webp.emit_chunks chunks) = false := by
          simp [magic.GIF89A, webp.RIFF, List.isPrefixOf]
        have hslice : bslice
            (webp.RIFF ++ leBytes32 ((webp.emit_chunks chunks).length + 4) ++
              webp.WEBP ++ webp.emit_chunks chunks) 8 12 = webp.WEBP := by
          have h := bslice_append_mid
            (webp.RIFF ++ leBytes32 ((webp.emit_chunks chunks).length + 4))
            webp.WEBP (webp.emit_chunks chunks)
          rw [show (webp.RIFF ++ leBytes32 ((webp.emit_chunks chunks).length + 4)).length = 8 by
            simp [webp.RIFF, leBytes32], show (webp.WEBP).length = 4 from rfl] at h
          rw [List.append_assoc]
          exact h
        have hfmt2 : detect_format
            (webp.RIFF ++ leBytes32 ((webp.emit_chunks chunks).length + 4) ++
              webp.WEBP ++ webp.emit_chunks chunks) = some .WebP := by
          unfold detect_format
          rw [if_neg (by rw [houtlen]; omega)]
          rw [hjp, hpng, hg87, hg89]
          rw [show magic.RIFF = webp.RIFF from rfl, hriffp, hslice]
          simp [magic.WEBP, webp.WEBP]
        -- membership facts for the second acceptance check
        have himg' : (chunks.any fun c => c.fourcc == webp.VP8cc || c.fourcc == webp.VP8Lcc) =
            true ∨ (chunks.any fun c => c.fourcc == webp.VP8Xcc) = true := by
          by_contra hno
          push_neg at hno
          exact himg ⟨hno.1, hno.2⟩
        have hacc2 : ¬ (¬ (((chunks.filter fun c => ! webp.is_metadata_chunk c.fourcc).map
              webp.emitted_chunk).any fun c =>
                c.fourcc == webp.VP8cc || c.fourcc == webp.VP8Lcc) = true ∧
            ¬ (((chunks.filter fun c => ! webp.is_metadata_chunk c.fourcc).map
              webp.emitted_chunk).any fun c => c.fourcc == webp.VP8Xcc) = true) := by
          rcases himg' with hp | hq
          · obtain ⟨c, hc, hcp⟩ := List.any_eq_true.mp hp
            have hkeep : (! webp.is_metadata_chunk c.fourcc) = true := by
              rw [Bool.or_eq_true] at hcp
              rcases hcp with h | h
              · rw [beq_iff_eq.mp h]; decide
              · rw [beq_iff_eq.mp h]; decide
            intro hand
            apply hand.1
            refine List.any_eq_true.mpr ⟨webp.emitted_chunk c,
              List.mem_map.mpr ⟨c, List.mem_filter.mpr ⟨hc, hkeep⟩, rfl⟩, ?_⟩
            rw [emitted_chunk_fourcc]
            exact hcp
          · obtain ⟨c, hc, hcp⟩ := List.any_eq_true.mp hq
            have hkeep : (! webp.is_metadata_chunk c.fourcc) = true := by
              rw [beq_iff_eq.mp hcp]; decide
            intro hand
            apply hand.2
            refine List.any_eq_true.mpr ⟨webp.emitted_chunk c,
              List.mem_map.mpr ⟨c, List.mem_filter.mpr ⟨hc, hkeep⟩, rfl⟩, ?_⟩
            rw [emitted_chunk_fourcc]
            exact hcp
        -- the second emission is byte-identical
        have hsecond : webp.emit_chunks
            ((chunks.filter fun c => ! webp.is_metadata_chunk c.fourcc).map
              webp.emitted_chunk) = webp.emit_chunks chunks := by
          have hfilT : ((chunks.filter fun c => ! webp.is_metadata_chunk c.fourcc).map
              webp.emitted_chunk).filter (fun c => ! webp.is_metadata_chunk c.fourcc) =
              (chunks.filter fun c => ! webp.is_metadata_chunk c.fourcc).map
                webp.emitted_chunk := by
            apply List.filter_eq_self.mpr
            intro c hc
            obtain ⟨c₀, hc₀, rfl⟩ := List.mem_map.mp hc
            rw [emitted_chunk_fourcc]
            exact (List.mem_filter.mp hc₀).2
          have hmapT : ((chunks.filter fun c => ! webp.is_metadata_chunk c.fourcc).map
              webp.emitted_chunk).map webp.emitted_chunk =
              (chunks.filter fun c => ! webp.is_metadata_chunk c.fourcc).map
                webp.emitted_chunk := by
            rw [List.map_map]
            apply List.map_congr_left
            intro c hc
            exact emitted_chunk_idem c
          unfold webp.emit_chunks
          rw [hfilT, flatMap_emit_eq, hmapT, ← hbodyT]
          rfl
        -- the second strip
        have hstrip2 : webp.strip
            (webp.RIFF ++ leBytes32 ((webp.emit_chunks chunks).length + 4) ++
              webp.WEBP ++ webp.emit_chunks chunks) =
            .ok (webp.RIFF ++ leBytes32 ((webp.emit_chunks chunks).length + 4) ++
              webp.WEBP ++ webp.emit_chunks chunks) := by
          unfold webp.strip
          rw [if_neg (by rw [houtlen]; omega)]
          rw [if_neg (not_not_intro hriffp)]
          rw [if_neg (not_not_intro hslice)]
          unfold webp.parse_chunks
          rw [hrt]
          dsimp only
          rw [if_neg hacc2]
          rw [hsecond]
        unfold strip_metadata
        rw [hfmt2]
        dsimp only
        rw [hstrip2]
        dsimp only
        rw [Nat.sub_self]

/-! ### C8: helper lemmas for GIF idempotence -/

/-- A `bslice` from 0 is a `take`. -/
theorem bslice_zero_take (l : List Nat) (n : Nat) : bslice l 0 n = l.take n := by
  simp [bslice]

/-- Splitting a `bslice` at an interior position. -/
theorem bslice_split (l : List Nat) (a b c : Nat) (hab : a ≤ b) (hbc : b ≤ c) :
    bslice l a c = bslice l a b ++ bslice l b c := by
  unfold bslice
  rw [show c - a = (b - a) + (c - b) by omega, List.take_add]
  congr 1
  rw [List.drop_drop, show a + (b - a) = b by omega]

/-- A one-byte `bslice` inside the buffer is the `getD` read. -/
theorem bslice_one (l : List Nat) (a : Nat) (h : a < l.length) :
    bslice l a (a + 1) = [l.getD a 0] := by
  unfold bslice
  rw [show a + 1 - a = 1 by omega, List.drop_eq_getElem_cons h,
    List.getD_eq_getElem l 0 h]
  rfl

/-- A two-byte `bslice` inside the buffer. -/
theorem bslice_two (l : List Nat) (a : Nat) (h : a + 1 < l.length) :
    bslice l a (a + 2) = [l.getD a 0, l.getD (a + 1) 0] := by
  rw [bslice_split l a (a + 1) (a + 2) (by omega) (by omega),
    bslice_one l a (by omega), bslice_one l (a + 1) h]
  rfl

/-- Reading inside a `bslice` reads the underlying buffer. -/
theorem bslice_getD (l : List Nat) (a b i : Nat) (h1 : a + i < b) (h2 : b ≤ l.length) :
    (bslice l a b).getD i 0 = l.getD (a + i) 0 := by
  have hlen : (bslice l a b).length = b - a := bslice_length l a b h2 (by omega)
  rw [List.getD_eq_getElem _ 0 (by omega), List.getD_eq_getElem _ 0 (by omega)]
  simp [bslice]

/-- Reading inside a `take` reads the underlying buffer. -/
theorem getD_take (l : List Nat) (n i : Nat) (d : Nat) (h : i < n) :
    (l.take n).getD i d = l.getD i d := by
  by_cases hl : i < l.length
  · rw [List.getD_eq_getElem _ d (by simp; omega), List.getD_eq_getElem _ d hl]
    simp
  · rw [List.getD_eq_default _ d (by simp; omega), List.getD_eq_default _ d (by omega)]

/-- Reading the left part of an append. -/
theorem getD_append_left (l l' : List Nat) (i : Nat) (d : Nat) (h : i < l.length) :
    (l ++ l').getD i d = l.getD i d := by
  rw [List.getD_eq_getElem _ d (by simp; omega), List.getD_eq_getElem _ d h]
  exact List.getElem_append_left h

/-- A prefix of a buffer is a prefix of any extension of a long-enough
`take` of it. -/
theorem isPrefixOf_take_append (p : List Nat) :
    ∀ (l r : List Nat) (n : Nat), p.isPrefixOf l = true → p.length ≤ n →
    p.isPrefixOf (l.take n ++ r) = true := by
  induction p with
  | nil =>
    intro l r n hp hn
    simp [List.isPrefixOf]
  | cons a p' ih =>
    intro l r n hp hn
    cases l with
    | nil => simp [List.isPrefixOf] at hp
    | cons b l' =>
      simp only [List.isPrefixOf, Bool.and_eq_true] at hp
      obtain ⟨m, rfl⟩ : ∃ m, n = m + 1 := ⟨n - 1, by simp at hn; omega⟩
      rw [List.take_succ_cons, List.cons_append]
      simp only [List.isPrefixOf, Bool.and_eq_true]
      exact ⟨hp.1, ih l' r m hp.2 (by simp at hn ⊢; omega)⟩

/-- A well-formed chain is nonempty. -/
theorem WfChain_length_pos {C : List Nat} (h : gif.WfChain C) : 1 ≤ C.length := by
  cases h <;> simp

/-- A well-formed chain ends with its `0` terminator. -/
theorem WfChain_getLast {C : List Nat} (h : gif.WfChain C) : C.getLast? = some 0 := by
  induction h with
  | term => rfl
  | block n payload rest h1 h2 hr ih =>
    have hne : rest ≠ [] := by
      intro hnil
      have := WfChain_length_pos hr
      simp [hnil] at this
    rw [show n :: (payload ++ rest) = (n :: payload) ++ rest from rfl,
      List.getLast?_append_of_ne_nil _ hne]
    exact ih

/-- An emitted block is nonempty. -/
theorem EBlock_ne_nil {B : List Nat} (h : gif.EBlock B) : B ≠ [] := by
  cases h with
  | gce chain hc => simp
  | ptext chain hc => simp
  | netscape rest hc => simp
  | image desc lct lzw chain hd hd0 hl hc =>
    have : desc ≠ [] := by
      intro hnil
      rw [hnil] at hd
      simp at hd
    exact fun hnil => this (List.append_eq_nil.mp hnil).1

/-- An emitted block ends with the chain terminator `0`. -/
theorem EBlock_getLast {B : List Nat} (h : gif.EBlock B) : B.getLast? = some 0 := by
  have hchain : ∀ (C : List Nat), gif.WfChain C → ∀ (p : List Nat),
      (p ++ C).getLast? = some 0 := by
    intro C hC p
    have hne : C ≠ [] := by
      intro hnil
      have := WfChain_length_pos hC
      simp [hnil] at this
    rw [List.getLast?_append_of_ne_nil _ hne]
    exact WfChain_getLast hC
  cases h with
  | gce chain hc => exact hchain chain hc [0x21, 0xF9]
  | ptext chain hc => exact hchain chain hc [0x21, 0x01]
  | netscape rest hc =>
    have := hchain _ hc [0x21, 0xFF]
    simpa using this
  | image desc lct lzw chain hd hd0 hl hc =>
    have := hchain chain hc (desc ++ (lct ++ [lzw]))
    rw [List.append_assoc, List.append_assoc] at this
    simpa using this

/-- Block lists of nonempty blocks are no longer than their flattening. -/
theorem blocks_length_le (Bs : List (List Nat)) (h : ∀ B ∈ Bs, B ≠ []) :
    Bs.length ≤ Bs.flatten.length := by
  induction Bs with
  | nil => simp
  | cons B Bs' ih =>
    rw [List.flatten_cons, List.length_append, List.length_cons]
    have h1 : 1 ≤ B.length := by
      have := h B (by simp)
      cases B
      · simp at this
      · simp
    have h2 := ih (fun x hx => h x (List.mem_cons_of_mem B hx))
    omega

/-- A nonempty flattening of emitted blocks ends with `0`. -/
theorem flatten_getLast_zero (Bs : List (List Nat)) (h : ∀ B ∈ Bs, gif.EBlock B)
    (hne : Bs.flatten ≠ []) : Bs.flatten.getLast? = some 0 := by
  induction Bs with
  | nil => simp at hne
  | cons B Bs' ih =>
    rw [List.flatten_cons]
    by_cases hB' : Bs'.flatten = []
    · rw [hB', List.append_nil]
      exact EBlock_getLast (h B (by simp))
    · rw [List.getLast?_append_of_ne_nil _ hB']
      exact ih (fun x hx => h x (List.mem_cons_of_mem B hx)) hB'

/-- Inverting a well-formed chain whose first byte is nonzero. -/
theorem WfChain_block_shape {C : List Nat} (h : gif.WfChain C) (hn0 : C.getD 0 0 ≠ 0) :
    ∃ payload rest, C = C.getD 0 0 :: (payload ++ rest) ∧
      payload.length = C.getD 0 0 ∧ gif.WfChain rest := by
  cases h with
  | term => simp at hn0
  | block n payload rest h1 h2 hr =>
    refine ⟨payload, rest, ?_, ?_, hr⟩
    · simp
    · simp [h1]

/-- Analysis of `read_sub_blocks`: a successful read appends a well-formed
chain that is exactly the consumed byte range. -/
theorem read_sub_blocks_spec (data : List Nat) :
    ∀ (fuel pos : Nat) (acc r : List Nat) (p : Nat),
    gif.read_sub_blocks data fuel pos acc = some (r, p) →
    ∃ C, r = acc ++ C ∧ p = pos + C.length ∧ gif.WfChain C ∧
      p ≤ data.length ∧ bslice data pos p = C := by
  intro fuel
  induction fuel with
  | zero =>
    intro pos acc r p h
    simp [gif.read_sub_blocks] at h
  | succ f ih =>
    intro pos acc r p h
    unfold gif.read_sub_blocks at h
    split_ifs at h with h1 h2 h3
    · injection h with h'
      injection h' with hr hp
      subst hr
      subst hp
      refine ⟨[data.getD pos 0], rfl, by simp, ?_, by omega, ?_⟩
      · rw [h2]
        exact gif.WfChain.term
      · rw [bslice_one data pos h1, h2]
    · obtain ⟨C', hr, hp, hwf, hle, hsl⟩ := ih _ _ _ _ h
      have hC'len : 1 ≤ C'.length := WfChain_length_pos hwf
      have hbl : (bslice data (pos + 1) (pos + 1 + data.getD pos 0)).length
          = data.getD pos 0 := by
        rw [bslice_length data _ _ (by omega) (by omega)]
        omega
      refine ⟨data.getD pos 0 :: (bslice data (pos + 1) (pos + 1 + data.getD pos 0) ++ C'),
        ?_, ?_, ?_, ?_, ?_⟩
      · rw [hr]
        simp [List.append_assoc]
      · simp only [List.length_cons, List.length_append, hbl]
        omega
      · exact gif.WfChain.block (data.getD pos 0) _ C' hbl.symm (by omega) hwf
      · exact hle
      · rw [bslice_split data pos (pos + 1) p (by omega) (by omega),
          bslice_split data (pos + 1) (pos + 1 + data.getD pos 0) p (by omega) (by omega),
          bslice_one data pos h1, hsl]
        simp

/-- Synthesis for `read_sub_blocks`: reading at the start of a well-formed
chain collects exactly the chain. -/
theorem read_sub_blocks_of_chain {C : List Nat} (h : gif.WfChain C) :
    ∀ (pre rest acc : List Nat) (fuel : Nat), C.length ≤ fuel →
    gif.read_sub_blocks (pre ++ (C ++ rest)) fuel pre.length acc =
      some (acc ++ C, pre.length + C.length) := by
  induction h with
  | term =>
    intro pre rest acc fuel hfuel
    obtain ⟨f, rfl⟩ : ∃ f, fuel = f + 1 := ⟨fuel - 1, by simp at hfuel; omega⟩
    have hhead : (pre ++ ([0] ++ rest)).getD pre.length 0 = 0 := by
      have := getD_append_off pre ([0] ++ rest) 0
      simpa using this
    have hlen : (pre ++ ([0] ++ rest)).length = pre.length + 1 + rest.length := by
      simp only [List.length_append, List.length_cons, List.length_nil]
      omega
    conv_lhs => rw [gif.read_sub_blocks]
    split_ifs with hc1
    · rw [hhead]
      rfl
    · exfalso
      omega
  | block n payload restC hn h1n hr ih =>
    intro pre rest acc fuel hfuel
    obtain ⟨f, rfl⟩ : ∃ f, fuel = f + 1 := ⟨fuel - 1, by simp at hfuel; omega⟩
    have hdata : pre ++ ((n :: (payload ++ restC)) ++ rest) =
        pre ++ (n :: (payload ++ (restC ++ rest))) := by
      simp [List.append_assoc]
    rw [hdata]
    have hhead : (pre ++ (n :: (payload ++ (restC ++ rest)))).getD pre.length 0 = n := by
      have := getD_append_off pre (n :: (payload ++ (restC ++ rest))) 0
      simpa using this
    have hlen : (pre ++ (n :: (payload ++ (restC ++ rest)))).length =
        pre.length + 1 + payload.length + restC.length + rest.length := by
      simp only [List.length_append, List.length_cons]
      omega
    have hrc1 : 1 ≤ restC.length := WfChain_length_pos hr
    have hslice : bslice (pre ++ (n :: (payload ++ (restC ++ rest))))
        (pre.length + 1) (pre.length + 1 + n) = payload := by
      have h := bslice_append_mid (pre ++ [n]) payload (restC ++ rest)
      simp only [List.append_assoc, List.cons_append, List.nil_append] at h
      rw [show (pre ++ [n]).length = pre.length + 1 by simp, ← hn] at h
      exact h
    have hrec := ih (pre ++ (n :: payload)) rest (acc ++ n :: payload) f
      (by simp at hfuel ⊢; omega)
    simp only [List.append_assoc, List.cons_append, List.nil_append] at hrec
    rw [show (pre ++ (n :: payload)).length = pre.length + 1 + n by
      simp only [List.length_append, List.length_cons, hn]; omega] at hrec
    conv_lhs => rw [gif.read_sub_blocks]
    split_ifs with hc1 hc2 hc3
    · exfalso
      rw [hhead] at hc2
      omega
    · exfalso
      rw [hhead] at hc3
      omega
    · rw [hhead, hslice, hrec]
      congr 2
      simp only [List.length_cons, List.length_append]
      omega
    · exfalso
      omega

/-- One synthesis step of the block loop over a kept graphics-control or
plain-text extension. -/
theorem gif_loop_step_ext (pre acc chain tail : List Nat) (ext : Nat) (f : Nat)
    (hwfc : gif.WfChain chain)
    (hext : ext = 0xF9 ∨ ext = 0x01)
    (hrec : gif.loop (pre ++ (0x21 :: ext :: (chain ++ tail))) f
      (pre.length + 2 + chain.length) (acc ++ (0x21 :: ext :: chain)) =
      .ok (acc ++ (0x21 :: ext :: (chain ++ tail)))) :
    gif.loop (pre ++ (0x21 :: ext :: (chain ++ tail))) (f + 1) pre.length acc =
      .ok (acc ++ (0x21 :: ext :: (chain ++ tail))) := by
  have hclen : 1 ≤ chain.length := WfChain_length_pos hwfc
  have hlen : (pre ++ (0x21 :: ext :: (chain ++ tail))).length =
      pre.length + 2 + chain.length + tail.length := by
    simp only [List.length_append, List.length_cons]
    omega
  have hhead : (pre ++ (0x21 :: ext :: (chain ++ tail))).getD pre.length 0 = 0x21 := by
    have := getD_append_off pre (0x21 :: ext :: (chain ++ tail)) 0
    simpa using this
  have hsec : (pre ++ (0x21 :: ext :: (chain ++ tail))).getD (pre.length + 1) 0 = ext := by
    have := getD_append_off pre (0x21 :: ext :: (chain ++ tail)) 1
    simpa using this
  have hsl2 : bslice (pre ++ (0x21 :: ext :: (chain ++ tail))) pre.length
      (pre.length + 2) = [0x21, ext] := by
    have h := bslice_two (pre ++ (0x21 :: ext :: (chain ++ tail))) pre.length (by omega)
    rw [hhead, hsec] at h
    exact h
  have hread := read_sub_blocks_of_chain hwfc (pre ++ [0x21, ext]) tail []
    ((pre ++ (0x21 :: ext :: (chain ++ tail))).length + 1) (by omega)
  simp only [List.append_assoc, List.cons_append, List.nil_append] at hread
  rw [show (pre ++ [0x21, ext]).length = pre.length + 2 by simp] at hread
  rw [hlen] at hread
  conv_lhs => rw [gif.loop]
  rw [hhead, hsec, hlen]
  rw [if_pos (by omega : pre.length < pre.length + 2 + chain.length + tail.length)]
  rw [if_pos (rfl : (0x21 : Nat) = 0x21)]
  rw [if_neg (by omega : ¬ pre.length + 2 + chain.length + tail.length < pre.length + 2)]
  rcases hext with rfl | rfl
  · rw [if_neg (by omega : ¬ (0xF9 : Nat) = 0xFE)]
    rw [if_neg (by omega : ¬ (0xF9 : Nat) = 0xFF)]
    rw [if_pos (rfl : (0xF9 : Nat) = 0xF9)]
    rw [hread]
    dsimp only
    rw [hsl2, List.append_assoc acc]
    simp only [List.cons_append, List.nil_append]
    exact hrec
  · rw [if_neg (by omega : ¬ (0x01 : Nat) = 0xFE)]
    rw [if_neg (by omega : ¬ (0x01 : Nat) = 0xFF)]
    rw [if_neg (by omega : ¬ (0x01 : Nat) = 0xF9)]
    rw [if_pos (rfl : (0x01 : Nat) = 0x01)]
    rw [hread]
    dsimp only
    rw [hsl2, List.append_assoc acc]
    simp only [List.cons_append, List.nil_append]
    exact hrec

/-- One synthesis step of the block loop over a kept NETSCAPE application
extension. -/
theorem gif_loop_step_netscape (pre acc nrest tail : List Nat) (f : Nat)
    (hwfc : gif.WfChain (0x0B :: (gif.NETSCAPE_ID ++ nrest)))
    (hrec : gif.loop (pre ++ (0x21 :: 0xFF :: 0x0B :: (gif.NETSCAPE_ID ++ (nrest ++ tail)))) f
      (pre.length + 14 + nrest.length)
      (acc ++ (0x21 :: 0xFF :: 0x0B :: (gif.NETSCAPE_ID ++ nrest))) =
      .ok (acc ++ (0x21 :: 0xFF :: 0x0B :: (gif.NETSCAPE_ID ++ (nrest ++ tail))))) :
    gif.loop (pre ++ (0x21 :: 0xFF :: 0x0B :: (gif.NETSCAPE_ID ++ (nrest ++ tail)))) (f + 1)
      pre.length acc =
      .ok (acc ++ (0x21 :: 0xFF :: 0x0B :: (gif.NETSCAPE_ID ++ (nrest ++ tail)))) := by
  have hid11 : gif.NETSCAPE_ID.length = 11 := rfl
  have hlen : (pre ++ (0x21 :: 0xFF :: 0x0B :: (gif.NETSCAPE_ID ++ (nrest ++ tail)))).length =
      pre.length + 14 + nrest.length + tail.length := by
    simp only [List.length_append, List.length_cons, hid11]
    omega
  have hhead : (pre ++ (0x21 :: 0xFF :: 0x0B ::
      (gif.NETSCAPE_ID ++ (nrest ++ tail)))).getD pre.length 0 = 0x21 := by
    have := getD_append_off pre (0x21 :: 0xFF :: 0x0B :: (gif.NETSCAPE_ID ++ (nrest ++ tail))) 0
    simpa using this
  have hsec : (pre ++ (0x21 :: 0xFF :: 0x0B ::
      (gif.NETSCAPE_ID ++ (nrest ++ tail)))).getD (pre.length + 1) 0 = 0xFF := by
    have := getD_append_off pre (0x21 :: 0xFF :: 0x0B :: (gif.NETSCAPE_ID ++ (nrest ++ tail))) 1
    simpa using this
  have hthird : (pre ++ (0x21 :: 0xFF :: 0x0B ::
      (gif.NETSCAPE_ID ++ (nrest ++ tail)))).getD (pre.length + 2) 0 = 0x0B := by
    have := getD_append_off pre (0x21 :: 0xFF :: 0x0B :: (gif.NETSCAPE_ID ++ (nrest ++ tail))) 2
    simpa using this
  have hsl2 : bslice (pre ++ (0x21 :: 0xFF :: 0x0B :: (gif.NETSCAPE_ID ++ (nrest ++ tail))))
      pre.length (pre.length + 2) = [0x21, 0xFF] := by
    have h := bslice_two (pre ++ (0x21 :: 0xFF :: 0x0B ::
      (gif.NETSCAPE_ID ++ (nrest ++ tail)))) pre.length (by omega)
    rw [hhead, hsec] at h
    exact h
  have hslid : bslice (pre ++ (0x21 :: 0xFF :: 0x0B :: (gif.NETSCAPE_ID ++ (nrest ++ tail))))
      (pre.length + 3) (pre.length + 14) = gif.NETSCAPE_ID := by
    have h := bslice_append_mid (pre ++ [0x21, 0xFF, 0x0B]) gif.NETSCAPE_ID (nrest ++ tail)
    simp only [List.append_assoc, List.cons_append, List.nil_append] at h
    have e1 : (pre ++ [0x21, 0xFF, 0x0B]).length = pre.length + 3 := by simp
    have e2 : pre.length + 3 + gif.NETSCAPE_ID.length = pre.length + 14 := by rw [hid11]
    rw [e1, e2] at h
    exact h
  have hnet : gif.is_netscape_extension
      (pre ++ (0x21 :: 0xFF :: 0x0B :: (gif.NETSCAPE_ID ++ (nrest ++ tail))))
      (pre.length + 2) = true := by
    unfold gif.is_netscape_extension
    rw [hlen]
    rw [if_neg (by omega :
      ¬ pre.length + 14 + nrest.length + tail.length < pre.length + 2 + 12)]
    rw [hthird]
    rw [if_neg (by omega : ¬ ¬ (0x0B : Nat) = 0x0B)]
    have e3 : pre.length + 2 + 1 = pre.length + 3 := by omega
    have e4 : pre.length + 2 + 12 = pre.length + 14 := by omega
    rw [e3, e4, hslid]
    exact beq_self_eq_true _
  have hread := read_sub_blocks_of_chain hwfc (pre ++ [0x21, 0xFF]) tail []
    ((pre ++ (0x21 :: 0xFF :: 0x0B :: (gif.NETSCAPE_ID ++ (nrest ++ tail)))).length + 1)
    (by simp only [List.length_cons, List.length_append, hid11, hlen]; omega)
  simp only [List.append_assoc, List.cons_append, List.nil_append] at hread
  have e5 : (pre ++ [0x21, 0xFF]).length = pre.length + 2 := by simp
  rw [e5, hlen] at hread
  conv_lhs => rw [gif.loop]
  rw [hhead, hsec, hlen]
  rw [if_pos (by omega : pre.length < pre.length + 14 + nrest.length + tail.length)]
  rw [if_pos (rfl : (0x21 : Nat) = 0x21)]
  rw [if_neg (by omega : ¬ pre.length + 14 + nrest.length + tail.length < pre.length + 2)]
  rw [if_neg (by omega : ¬ (0xFF : Nat) = 0xFE)]
  rw [if_pos (rfl : (0xFF : Nat) = 0xFF)]
  rw [hnet]
  rw [if_pos (rfl : true = true)]
  rw [hread]
  dsimp only
  rw [hsl2, List.append_assoc acc]
  simp only [List.cons_append, List.nil_append]
  have e6 : pre.length + 2 + (0x0B :: (gif.NETSCAPE_ID ++ nrest)).length =
      pre.length + 14 + nrest.length := by
    simp only [List.length_cons, List.length_append, hid11]
    omega
  rw [e6]
  exact hrec

/-- One synthesis step of the block loop over an image block. -/
theorem gif_loop_step_image (pre acc desc lct chain tail : List Nat) (lzw : Nat) (f : Nat)
    (hwfc : gif.WfChain chain)
    (hd10 : desc.length = 10) (hd0 : desc.getD 0 0 = 0x2C)
    (hlct : lct.length = gif.lct_size_of (desc.getD 9 0))
    (hrec : gif.loop (pre ++ (desc ++ (lct ++ (lzw :: (chain ++ tail))))) f
      (pre.length + 10 + lct.length + 1 + chain.length)
      (acc ++ (desc ++ (lct ++ (lzw :: chain)))) =
      .ok (acc ++ (desc ++ (lct ++ (lzw :: (chain ++ tail)))))) :
    gif.loop (pre ++ (desc ++ (lct ++ (lzw :: (chain ++ tail))))) (f + 1) pre.length acc =
      .ok (acc ++ (desc ++ (lct ++ (lzw :: (chain ++ tail))))) := by
  have hclen : 1 ≤ chain.length := WfChain_length_pos hwfc
  have hlen : (pre ++ (desc ++ (lct ++ (lzw :: (chain ++ tail))))).length =
      pre.length + 10 + lct.length + 1 + chain.length + tail.length := by
    simp only [List.length_append, List.length_cons, hd10]
    omega
  have hhead : (pre ++ (desc ++ (lct ++ (lzw :: (chain ++ tail))))).getD pre.length 0 =
      0x2C := by
    have h := getD_append_off pre (desc ++ (lct ++ (lzw :: (chain ++ tail)))) 0
    rw [getD_append_left _ _ _ _ (by omega : 0 < desc.length), hd0] at h
    simpa using h
  have hpack : (pre ++ (desc ++ (lct ++ (lzw :: (chain ++ tail))))).getD
      (pre.length + 9) 0 = desc.getD 9 0 := by
    have h := getD_append_off pre (desc ++ (lct ++ (lzw :: (chain ++ tail)))) 9
    rw [getD_append_left _ _ _ _ (by omega : 9 < desc.length)] at h
    exact h
  have hlzwf : (pre ++ (desc ++ (lct ++ (lzw :: (chain ++ tail))))).getD
      (pre.length + 10 + lct.length) 0 = lzw := by
    have h := getD_append_off (pre ++ desc ++ lct) (lzw :: (chain ++ tail)) 0
    have e : (pre ++ desc ++ lct).length = pre.length + 10 + lct.length := by
      rw [List.length_append, List.length_append, hd10]
    rw [e] at h
    simp only [List.append_assoc] at h
    simpa using h
  have hsl10 : bslice (pre ++ (desc ++ (lct ++ (lzw :: (chain ++ tail)))))
      pre.length (pre.length + 10) = desc := by
    have h := bslice_append_mid pre desc (lct ++ (lzw :: (chain ++ tail)))
    rw [hd10] at h
    exact h
  have hsllct : bslice (pre ++ (desc ++ (lct ++ (lzw :: (chain ++ tail)))))
      (pre.length + 10) (pre.length + 10 + lct.length) = lct := by
    have h := bslice_append_mid (pre ++ desc) lct (lzw :: (chain ++ tail))
    have e : (pre ++ desc).length = pre.length + 10 := by
      rw [List.length_append, hd10]
    rw [e] at h
    simp only [List.append_assoc] at h
    exact h
  have hread := read_sub_blocks_of_chain hwfc (pre ++ desc ++ lct ++ [lzw]) tail []
    (pre.length + 10 + lct.length + 1 + chain.length + tail.length + 1) (by omega)
  have e3 : (pre ++ desc ++ lct ++ [lzw]).length = pre.length + 10 + lct.length + 1 := by
    rw [List.length_append, List.length_append, List.length_append, hd10]
    rfl
  rw [e3] at hread
  simp only [List.append_assoc, List.cons_append, List.nil_append] at hread
  conv_lhs => rw [gif.loop]
  rw [hhead, hlen]
  rw [if_pos (by omega :
    pre.length < pre.length + 10 + lct.length + 1 + chain.length + tail.length)]
  rw [if_neg (by omega : ¬ (0x2C : Nat) = 0x21)]
  rw [if_pos (rfl : (0x2C : Nat) = 0x2C)]
  rw [if_neg (by omega :
    ¬ pre.length + 10 + lct.length + 1 + chain.length + tail.length < pre.length + 10)]
  rw [hpack, ← hlct]
  have hc1 : ¬ (desc.getD 9 0 &&& 0x80 ≠ 0 ∧
      pre.length + 10 + lct.length + 1 + chain.length + tail.length <
        pre.length + 10 + lct.length) := by
    intro hand
    omega
  rw [if_neg hc1]
  rw [if_neg (by omega :
    ¬ pre.length + 10 + lct.length + 1 + chain.length + tail.length ≤
      pre.length + 10 + lct.length)]
  rw [hread]
  dsimp only
  rw [hsl10, hsllct, hlzwf]
  simp only [List.append_assoc, List.cons_append, List.nil_append]
  exact hrec

/-- The block loop at a trailer byte copies it and stops. -/
theorem gif_loop_trailer (pre acc : List Nat) (f : Nat) :
    gif.loop (pre ++ [0x3B]) (f + 1) pre.length acc = .ok (acc ++ [0x3B]) := by
  have hlen : (pre ++ [0x3B]).length = pre.length + 1 := by simp
  have hhead : (pre ++ [0x3B]).getD pre.length 0 = 0x3B := by
    simp
  conv_lhs => rw [gif.loop]
  rw [hhead, hlen]
  rw [if_pos (by omega : pre.length < pre.length + 1)]
  rw [if_neg (by omega : ¬ (0x3B : Nat) = 0x21)]
  rw [if_neg (by omega : ¬ (0x3B : Nat) = 0x2C)]
  rw [if_pos (rfl : (0x3B : Nat) = 0x3B)]

/-- Synthesis for the block loop: running it over a flattened list of
emitted blocks followed by a trailer copies everything verbatim. -/
theorem gif_loop_of_blocks (Bs : List (List Nat)) :
    ∀ (pre acc : List Nat) (fuel : Nat),
    (∀ B ∈ Bs, gif.EBlock B) →
    Bs.length < fuel →
    gif.loop (pre ++ (Bs.flatten ++ [0x3B])) fuel pre.length acc =
      .ok (acc ++ (Bs.flatten ++ [0x3B])) := by
  induction Bs with
  | nil =>
    intro pre acc fuel hBs hfuel
    obtain ⟨f, rfl⟩ : ∃ f, fuel = f + 1 := ⟨fuel - 1, by omega⟩
    simp only [List.flatten_nil, List.nil_append]
    exact gif_loop_trailer pre acc f
  | cons B Bs' ih =>
    intro pre acc fuel hBs hfuel
    obtain ⟨f, rfl⟩ : ∃ f, fuel = f + 1 := ⟨fuel - 1, by omega⟩
    have hfuel' : Bs'.length < f := by
      simp only [List.length_cons] at hfuel
      omega
    have hBs' : ∀ x ∈ Bs', gif.EBlock x := fun x hx => hBs x (List.mem_cons_of_mem B hx)
    have hB := hBs B (List.mem_cons_self B Bs')
    cases hB with
    | gce chain hwfc =>
      simp only [List.flatten_cons, List.cons_append, List.append_assoc]
      refine gif_loop_step_ext pre acc chain (Bs'.flatten ++ [0x3B]) 0xF9 f hwfc
        (Or.inl rfl) ?_
      have h := ih (pre ++ (0x21 :: 0xF9 :: chain)) (acc ++ (0x21 :: 0xF9 :: chain)) f
        hBs' hfuel'
      rw [show (pre ++ (0x21 :: 0xF9 :: chain)).length = pre.length + 2 + chain.length by
        simp only [List.length_append, List.length_cons]; omega] at h
      simp only [List.append_assoc, List.cons_append] at h
      exact h
    | ptext chain hwfc =>
      simp only [List.flatten_cons, List.cons_append, List.append_assoc]
      refine gif_loop_step_ext pre acc chain (Bs'.flatten ++ [0x3B]) 0x01 f hwfc
        (Or.inr rfl) ?_
      have h := ih (pre ++ (0x21 :: 0x01 :: chain)) (acc ++ (0x21 :: 0x01 :: chain)) f
        hBs' hfuel'
      rw [show (pre ++ (0x21 :: 0x01 :: chain)).length = pre.length + 2 + chain.length by
        simp only [List.length_append, List.length_cons]; omega] at h
      simp only [List.append_assoc, List.cons_append] at h
      exact h
    | netscape nrest hwfc =>
      simp only [List.flatten_cons, List.cons_append, List.append_assoc]
      refine gif_loop_step_netscape pre acc nrest (Bs'.flatten ++ [0x3B]) f hwfc ?_
      have h := ih (pre ++ (0x21 :: 0xFF :: 0x0B :: (gif.NETSCAPE_ID ++ nrest)))
        (acc ++ (0x21 :: 0xFF :: 0x0B :: (gif.NETSCAPE_ID ++ nrest))) f hBs' hfuel'
      rw [show (pre ++ (0x21 :: 0xFF :: 0x0B :: (gif.NETSCAPE_ID ++ nrest))).length =
          pre.length + 14 + nrest.length by
        simp only [List.length_append, List.length_cons,
          show gif.NETSCAPE_ID.length = 11 from rfl]; omega] at h
      simp only [List.append_assoc, List.cons_append] at h
      exact h
    | image desc lct lzw chain hd10 hd0 hlct hwfc =>
      simp only [List.flatten_cons, List.cons_append, List.append_assoc]
      refine gif_loop_step_image pre acc desc lct chain (Bs'.flatten ++ [0x3B]) lzw f hwfc
        hd10 hd0 hlct ?_
      have h := ih (pre ++ (desc ++ (lct ++ (lzw :: chain))))
        (acc ++ (desc ++ (lct ++ (lzw :: chain)))) f hBs' hfuel'
      rw [show (pre ++ (desc ++ (lct ++ (lzw :: chain)))).length =
          pre.length + 10 + lct.length + 1 + chain.length by
        simp only [List.length_append, List.length_cons, hd10]; omega] at h
      simp only [List.append_assoc, List.cons_append] at h
      exact h

/-- A slice of a slice is a slice of the underlying buffer. -/
theorem bslice_bslice (l : List Nat) (a b i j : Nat) (hij : i ≤ j) (hj : a + j ≤ b) :
    bslice (bslice l a b) i j = bslice l (a + i) (a + j) := by
  unfold bslice
  rw [List.drop_take, List.drop_drop, List.take_take]
  rw [Nat.min_eq_left (by omega)]
  congr 1
  omega

/-- Unpacking a successful `is_netscape_extension` check. -/
theorem is_netscape_spec (data : List Nat) (q : Nat)
    (h : gif.is_netscape_extension data q = true) :
    q + 12 ≤ data.length ∧ data.getD q 0 = 0x0B ∧
      bslice data (q + 1) (q + 12) = gif.NETSCAPE_ID := by
  unfold gif.is_netscape_extension at h
  split_ifs at h with h1 h2
  exact ⟨by omega, not_not.mp h2, beq_iff_eq.mp h⟩

/-- Analysis of the block loop: everything a successful run appends to
the accumulator is a flattened list of emitted blocks, followed by the
copied trailer when the loop stopped at one. -/
theorem gif_loop_blocks_of (data : List Nat) :
    ∀ (fuel pos : Nat) (acc res : List Nat),
    gif.loop data fuel pos acc = .ok res →
    ∃ Bs : List (List Nat), (∀ B ∈ Bs, gif.EBlock B) ∧
      (res = acc ++ (Bs.flatten ++ [0x3B]) ∨ res = acc ++ Bs.flatten) := by
  intro fuel
  induction fuel with
  | zero =>
    intro pos acc res h
    simp [gif.loop] at h
  | succ f ih =>
    intro pos acc res h
    unfold gif.loop at h
    split_ifs at h with h1 h2 h3 h4 h5 h6 h7 h8 h9 h10 h11 h12 h13
    · -- comment extension: skipped
      split at h
      · cases h
      · exact ih _ _ _ h
    · -- NETSCAPE application extension: kept
      split at h
      · cases h
      · rename_i r hr
        obtain ⟨r1, r2⟩ := r
        dsimp only at h
        obtain ⟨C, hC1, hC2, hwfC, hle, hslC⟩ := read_sub_blocks_spec data _ _ _ _ _ hr
        simp only [List.nil_append] at hC1
        rw [hC1] at h
        rw [hC2] at hslC hle
        obtain ⟨hq12, h0B, hID⟩ := is_netscape_spec data (pos + 2) h6
        have hClen1 : 1 ≤ C.length := WfChain_length_pos hwfC
        have hgd0 : C.getD 0 0 = 0x0B := by
          have hb := bslice_getD data (pos + 2) (pos + 2 + C.length) 0 (by omega) (by omega)
          rw [hslC, show pos + 2 + 0 = pos + 2 from rfl, h0B] at hb
          exact hb
        obtain ⟨payload, prest, hCeq, hplen, hwfrest⟩ :=
          WfChain_block_shape hwfC (by rw [hgd0]; omega)
        rw [hgd0] at hCeq hplen
        have hC12 : 12 ≤ C.length := by
          rw [hCeq]
          simp only [List.length_cons, List.length_append]
          omega
        have hpay : bslice C 1 12 = payload := by
          rw [hCeq]
          unfold bslice
          rw [show (12 : Nat) - 1 = 11 from rfl, List.drop_succ_cons, List.drop_zero]
          exact List.take_left' hplen
        have hbb := bslice_bslice data (pos + 2) (pos + 2 + C.length) 1 12
          (by omega) (by omega)
        rw [hslC, hpay, hID] at hbb
        subst hbb
        obtain ⟨Bs', hBs', hres'⟩ := ih _ _ _ h
        have hsl2 : bslice data pos (pos + 2) = [0x21, 0xFF] := by
          have hb := bslice_two data pos (by omega)
          rw [h2, h5] at hb
          exact hb
        refine ⟨(0x21 :: 0xFF :: C) :: Bs', ?_, ?_⟩
        · intro x hx
          rcases List.mem_cons.mp hx with rfl | hx
          · rw [hCeq]
            exact gif.EBlock.netscape prest (hCeq ▸ hwfC)
          · exact hBs' x hx
        · rcases hres' with h' | h'
          · left
            rw [h', hsl2]
            simp [List.append_assoc]
          · right
            rw [h', hsl2]
            simp [List.append_assoc]
    · -- non-NETSCAPE application extension: skipped
      split at h
      · cases h
      · exact ih _ _ _ h
    · -- graphics control extension: kept
      split at h
      · cases h
      · rename_i r hr
        obtain ⟨r1, r2⟩ := r
        dsimp only at h
        obtain ⟨C, hC1, hC2, hwfC, hle, hslC⟩ := read_sub_blocks_spec data _ _ _ _ _ hr
        simp only [List.nil_append] at hC1
        rw [hC1] at h
        rw [hC2] at hslC hle
        obtain ⟨Bs', hBs', hres'⟩ := ih _ _ _ h
        have hsl2 : bslice data pos (pos + 2) = [0x21, 0xF9] := by
          have hb := bslice_two data pos (by omega)
          rw [h2, h7] at hb
          exact hb
        refine ⟨(0x21 :: 0xF9 :: C) :: Bs', ?_, ?_⟩
        · intro x hx
          rcases List.mem_cons.mp hx with rfl | hx
          · exact gif.EBlock.gce C hwfC
          · exact hBs' x hx
        · rcases hres' with h' | h'
          · left
            rw [h', hsl2]
            simp [List.append_assoc]
          · right
            rw [h', hsl2]
            simp [List.append_assoc]
    · -- plain text extension: kept
      split at h
      · cases h
      · rename_i r hr
        obtain ⟨r1, r2⟩ := r
        dsimp only at h
        obtain ⟨C, hC1, hC2, hwfC, hle, hslC⟩ := read_sub_blocks_spec data _ _ _ _ _ hr
        simp only [List.nil_append] at hC1
        rw [hC1] at h
        rw [hC2] at hslC hle
        obtain ⟨Bs', hBs', hres'⟩ := ih _ _ _ h
        have hsl2 : bslice data pos (pos + 2) = [0x21, 0x01] := by
          have hb := bslice_two data pos (by omega)
          rw [h2, h8] at hb
          exact hb
        refine ⟨(0x21 :: 0x01 :: C) :: Bs', ?_, ?_⟩
        · intro x hx
          rcases List.mem_cons.mp hx with rfl | hx
          · exact gif.EBlock.ptext C hwfC
          · exact hBs' x hx
        · rcases hres' with h' | h'
          · left
            rw [h', hsl2]
            simp [List.append_assoc]
          · right
            rw [h', hsl2]
            simp [List.append_assoc]
    · -- unknown extension: skipped
      split at h
      · cases h
      · exact ih _ _ _ h
    · -- image block: kept
      split at h
      · cases h
      · rename_i r hr
        obtain ⟨r1, r2⟩ := r
        dsimp only at h
        obtain ⟨C, hC1, hC2, hwfC, hle, hslC⟩ := read_sub_blocks_spec data _ _ _ _ _ hr
        simp only [List.nil_append] at hC1
        rw [hC1] at h
        rw [hC2] at hslC hle
        obtain ⟨Bs', hBs', hres'⟩ := ih _ _ _ h
        have hd10' : (bslice data pos (pos + 10)).length = 10 := by
          rw [bslice_length data pos (pos + 10) (by omega) (by omega)]
          omega
        have hd0' : (bslice data pos (pos + 10)).getD 0 0 = 0x2C := by
          have hb := bslice_getD data pos (pos + 10) 0 (by omega) (by omega)
          rw [show pos + 0 = pos from rfl, h9] at hb
          exact hb
        have hp9 : (bslice data pos (pos + 10)).getD 9 0 = data.getD (pos + 9) 0 :=
          bslice_getD data pos (pos + 10) 9 (by omega) (by omega)
        have hlct' : (bslice data (pos + 10)
            (pos + 10 + gif.lct_size_of (data.getD (pos + 9) 0))).length =
            gif.lct_size_of ((bslice data pos (pos + 10)).getD 9 0) := by
          rw [hp9, bslice_length data _ _ (by omega) (by omega)]
          omega
        refine ⟨(bslice data pos (pos + 10) ++ (bslice data (pos + 10)
            (pos + 10 + gif.lct_size_of (data.getD (pos + 9) 0)) ++
            (data.getD (pos + 10 + gif.lct_size_of (data.getD (pos + 9) 0)) 0 :: C))) :: Bs',
          ?_, ?_⟩
        · intro x hx
          rcases List.mem_cons.mp hx with rfl | hx
          · exact gif.EBlock.image _ _ _ _ hd10' hd0' hlct' hwfC
          · exact hBs' x hx
        · rcases hres' with h' | h'
          · left
            rw [h']
            simp [List.append_assoc]
          · right
            rw [h']
            simp [List.append_assoc]
    · -- trailer byte: copied, loop stops
      injection h with h'
      exact ⟨[], by simp, Or.inl (by rw [← h']; simp)⟩
    · -- unknown block type: skipped byte
      exact ih _ _ _ h
    · -- end of input
      injection h with h'
      exact ⟨[], by simp, Or.inr (by rw [← h']; simp)⟩

/-- The output of the GIF codec re-detects as GIF: it keeps the input's
13-byte header, whose signature bytes decide `detect_format`. -/
theorem gif_out_detect (data G R : List Nat)
    (hlen13 : 13 ≤ data.length)
    (hhdr : gif.GIF87A.isPrefixOf data = true ∨ gif.GIF89A.isPrefixOf data = true) :
    detect_format (data.take 13 ++ (G ++ R)) = some .Gif := by
  have htklen : (data.take 13).length = 13 := by
    rw [List.length_take]
    omega
  have hOutlen : (data.take 13 ++ (G ++ R)).length = 13 + (G.length + R.length) := by
    rw [List.length_append, List.length_append, htklen]
  have hg0 : data.getD 0 0 = 0x47 := by
    rcases hhdr with hp | hp
    · exact getD_zero_of_isPrefixOf (a := 0x47) (p := [0x49, 0x46, 0x38, 0x37, 0x61]) hp
    · exact getD_zero_of_isPrefixOf (a := 0x47) (p := [0x49, 0x46, 0x38, 0x39, 0x61]) hp
  have hb0 : (data.take 13 ++ (G ++ R)).getD 0 0 = 0x47 := by
    rw [getD_append_left _ _ _ _ (by omega : 0 < (data.take 13).length),
      getD_take data 13 0 0 (by omega), hg0]
  have hjp : magic.JPEG.isPrefixOf (data.take 13 ++ (G ++ R)) = false := by
    cases hx : magic.JPEG.isPrefixOf (data.take 13 ++ (G ++ R))
    · rfl
    · exfalso
      have h0 := getD_zero_of_isPrefixOf (a := 0xFF) (p := [0xD8, 0xFF]) hx
      rw [hb0] at h0
      omega
  have hpng : magic.PNG.isPrefixOf (data.take 13 ++ (G ++ R)) = false := by
    cases hx : magic.PNG.isPrefixOf (data.take 13 ++ (G ++ R))
    · rfl
    · exfalso
      have h0 := getD_zero_of_isPrefixOf (a := 0x89)
        (p := [0x50, 0x4E, 0x47, 0x0D, 0x0A, 0x1A, 0x0A]) hx
      rw [hb0] at h0
      omega
  have hgifpre : (magic.GIF87A.isPrefixOf (data.take 13 ++ (G ++ R)) ||
      magic.GIF89A.isPrefixOf (data.take 13 ++ (G ++ R))) = true := by
    rw [Bool.or_eq_true]
    rcases hhdr with hp | hp
    · exact Or.inl (isPrefixOf_take_append gif.GIF87A data (G ++ R) 13 hp (by decide))
    · exact Or.inr (isPrefixOf_take_append gif.GIF89A data (G ++ R) 13 hp (by decide))
  unfold detect_format
  rw [if_neg (by rw [hOutlen]; omega)]
  rw [hjp, hpng, hgifpre]
  simp

/-- On a re-assembled GIF output buffer, `gif::strip` passes its header
checks and reduces to the block loop started after the header and Global
Color Table copy. -/
theorem gif_strip_shape (data G R : List Nat)
    (hG : G = if gif.has_gct data then bslice data 13 (13 + gif.gct_size data) else [])
    (hGlen : G.length = gif.gct_size data)
    (hlen13 : 13 ≤ data.length)
    (hhdr : gif.GIF87A.isPrefixOf data = true ∨ gif.GIF89A.isPrefixOf data = true) :
    gif.strip (data.take 13 ++ (G ++ R)) =
      (match gif.loop (data.take 13 ++ (G ++ R)) ((data.take 13 ++ (G ++ R)).length + 1)
          (13 + gif.gct_size data) (data.take 13 ++ G) with
       | .error e => .error e
       | .ok out => .ok (if out.getLast? = some 0x3B then out else out ++ [0x3B])) := by
  have htklen : (data.take 13).length = 13 := by
    rw [List.length_take]
    omega
  have hOutlen : (data.take 13 ++ (G ++ R)).length = 13 + (G.length + R.length) := by
    rw [List.length_append, List.length_append, htklen]
  have hb10 : (data.take 13 ++ (G ++ R)).getD 10 0 = data.getD 10 0 := by
    rw [getD_append_left _ _ _ _ (by omega : 10 < (data.take 13).length),
      getD_take data 13 10 0 (by omega)]
  have hgs : gif.gct_size (data.take 13 ++ (G ++ R)) = gif.gct_size data := by
    unfold gif.gct_size gif.has_gct
    simp only [hb10]
  have hgp : gif.has_gct (data.take 13 ++ (G ++ R)) ↔ gif.has_gct data := by
    unfold gif.has_gct
    rw [hb10]
  have hOr : gif.GIF87A.isPrefixOf (data.take 13 ++ (G ++ R)) = true ∨
      gif.GIF89A.isPrefixOf (data.take 13 ++ (G ++ R)) = true := by
    rcases hhdr with hp | hp
    · exact Or.inl (isPrefixOf_take_append gif.GIF87A data (G ++ R) 13 hp (by decide))
    · exact Or.inr (isPrefixOf_take_append gif.GIF89A data (G ++ R) 13 hp (by decide))
  have hacc : bslice (data.take 13 ++ (G ++ R)) 0 13 ++
      (if gif.has_gct (data.take 13 ++ (G ++ R)) then
        bslice (data.take 13 ++ (G ++ R)) 13 (13 + gif.gct_size data) else []) =
      data.take 13 ++ G := by
    have hsl0 : bslice (data.take 13 ++ (G ++ R)) 0 13 = data.take 13 := by
      rw [bslice_zero_take]
      exact List.take_left' htklen
    rw [hsl0]
    congr 1
    by_cases hg : gif.has_gct data
    · rw [if_pos (hgp.mpr hg)]
      unfold bslice
      rw [List.drop_left' htklen, show 13 + gif.gct_size data - 13 = gif.gct_size data
        from by omega]
      exact List.take_left' hGlen
    · rw [if_neg (fun hq => hg (hgp.mp hq))]
      rw [hG, if_neg hg]
  unfold gif.strip
  rw [if_neg (by rw [hOutlen]; omega)]
  rw [if_neg (not_not_intro hOr)]
  rw [hgs]
  rw [if_neg (by
    intro hand
    have h2 := hand.2
    rw [hOutlen] at h2
    omega)]
  rw [hacc]

/-- Second pass of the GIF codec over a re-assembled output that ends in
a parsed trailer: every block is copied verbatim again. -/
theorem gif_second_pass_main (data G : List Nat) (Bs : List (List Nat))
    (hG : G = if gif.has_gct data then bslice data 13 (13 + gif.gct_size data) else [])
    (hGlen : G.length = gif.gct_size data)
    (hlen13 : 13 ≤ data.length)
    (hhdr : gif.GIF87A.isPrefixOf data = true ∨ gif.GIF89A.isPrefixOf data = true)
    (hBs : ∀ B ∈ Bs, gif.EBlock B) :
    gif.strip (data.take 13 ++ (G ++ (Bs.flatten ++ [0x3B]))) =
      .ok (data.take 13 ++ (G ++ (Bs.flatten ++ [0x3B]))) := by
  rw [gif_strip_shape data G (Bs.flatten ++ [0x3B]) hG hGlen hlen13 hhdr]
  have hpre : (data.take 13 ++ G).length = 13 + gif.gct_size data := by
    rw [List.length_append, List.length_take, Nat.min_eq_left hlen13, hGlen]
  have hflatle : Bs.length ≤ Bs.flatten.length :=
    blocks_length_le Bs (fun B hB => EBlock_ne_nil (hBs B hB))
  have hOutlen : (data.take 13 ++ (G ++ (Bs.flatten ++ [0x3B]))).length =
      13 + (G.length + (Bs.flatten.length + 1)) := by
    rw [List.length_append, List.length_append, List.length_append,
      List.length_take, Nat.min_eq_left hlen13]
    simp
  have hlp := gif_loop_of_blocks Bs (data.take 13 ++ G) (data.take 13 ++ G)
    ((data.take 13 ++ (G ++ (Bs.flatten ++ [0x3B]))).length + 1) hBs
    (by rw [hOutlen]; omega)
  rw [List.append_assoc] at hlp
  rw [hpre] at hlp
  rw [hlp]
  dsimp only
  have hlast : (data.take 13 ++ (G ++ (Bs.flatten ++ [0x3B]))).getLast? = some 0x3B := by
    have hconc : data.take 13 ++ (G ++ (Bs.flatten ++ [0x3B])) =
        (data.take 13 ++ (G ++ Bs.flatten)) ++ [0x3B] := by
      simp [List.append_assoc]
    rw [hconc]
    exact List.getLast?_concat _
  rw [if_pos hlast]

/-- Second pass of the GIF codec over a header-only output whose last
byte happens to be the trailer value: the loop stops at end of input and
the trailer check keeps the buffer unchanged. -/
theorem gif_second_pass_empty (data G : List Nat)
    (hG : G = if gif.has_gct data then bslice data 13 (13 + gif.gct_size data) else [])
    (hGlen : G.length = gif.gct_size data)
    (hlen13 : 13 ≤ data.length)
    (hhdr : gif.GIF87A.isPrefixOf data = true ∨ gif.GIF89A.isPrefixOf data = true)
    (hlast : (data.take 13 ++ G).getLast? = some 0x3B) :
    gif.strip (data.take 13 ++ (G ++ [])) = .ok (data.take 13 ++ (G ++ [])) := by
  rw [gif_strip_shape data G [] hG hGlen hlen13 hhdr]
  have hOutlen : (data.take 13 ++ (G ++ [])).length = 13 + gif.gct_size data := by
    rw [List.length_append, List.length_append, List.length_take,
      Nat.min_eq_left hlen13, hGlen]
    simp
  have hstop : gif.loop (data.take 13 ++ (G ++ []))
      ((data.take 13 ++ (G ++ [])).length + 1) (13 + gif.gct_size data)
      (data.take 13 ++ G) = .ok (data.take 13 ++ G) := by
    conv_lhs => rw [gif.loop]
    rw [if_neg (by rw [hOutlen]; omega)]
  rw [hstop]
  dsimp only
  rw [if_pos hlast]
  simp

/-- From a successful first-pass loop run, the wrapped output re-strips
to itself. -/
theorem gif_idem_final (data G out res : List Nat)
    (hG : G = if gif.has_gct data then bslice data 13 (13 + gif.gct_size data) else [])
    (hGlen : G.length = gif.gct_size data)
    (hlen13 : 13 ≤ data.length)
    (hhdr : gif.GIF87A.isPrefixOf data = true ∨ gif.GIF89A.isPrefixOf data = true)
    (hloop : gif.loop data (data.length + 1) (13 + gif.gct_size data)
      (data.take 13 ++ G) = .ok res)
    (hout : (if res.getLast? = some 0x3B then res else res ++ [0x3B]) = out) :
    strip_metadata out = .ok ⟨out, 0⟩ := by
  obtain ⟨Bs, hBs, hres⟩ := gif_loop_blocks_of data _ _ _ _ hloop
  rcases hres with hres | hres
  · have hres' : res = data.take 13 ++ (G ++ (Bs.flatten ++ [0x3B])) := by
      rw [hres, List.append_assoc]
    have hlast : res.getLast? = some 0x3B := by
      rw [hres']
      have hconc : data.take 13 ++ (G ++ (Bs.flatten ++ [0x3B])) =
          (data.take 13 ++ (G ++ Bs.flatten)) ++ [0x3B] := by
        simp [List.append_assoc]
      rw [hconc]
      exact List.getLast?_concat _
    rw [if_pos hlast] at hout
    rw [← hout, hres']
    unfold strip_metadata
    rw [gif_out_detect data G (Bs.flatten ++ [0x3B]) hlen13 hhdr]
    dsimp only
    rw [gif_second_pass_main data G Bs hG hGlen hlen13 hhdr hBs]
    dsimp only
    rw [Nat.sub_self]
  · by_cases hfl : Bs.flatten = []
    · have hres' : res = data.take 13 ++ G := by
        rw [hres, hfl]
        simp
      by_cases hlast : res.getLast? = some 0x3B
      · rw [if_pos hlast] at hout
        rw [← hout, hres']
        unfold strip_metadata
        have hdet := gif_out_detect data G [] hlen13 hhdr
        rw [List.append_nil] at hdet
        rw [hdet]
        dsimp only
        have hsp := gif_second_pass_empty data G hG hGlen hlen13 hhdr
          (by rw [← hres']; exact hlast)
        rw [List.append_nil] at hsp
        rw [hsp]
        dsimp only
        rw [Nat.sub_self]
      · rw [if_neg hlast] at hout
        have hout' : out = data.take 13 ++
            (G ++ (([] : List (List Nat)).flatten ++ [0x3B])) := by
          rw [← hout, hres']
          simp [List.append_assoc]
        rw [hout']
        unfold strip_metadata
        rw [gif_out_detect data G (([] : List (List Nat)).flatten ++ [0x3B]) hlen13 hhdr]
        dsimp only
        rw [gif_second_pass_main data G [] hG hGlen hlen13 hhdr (by simp)]
        dsimp only
        rw [Nat.sub_self]
    · have hlast0 : res.getLast? = some 0 := by
        rw [hres, List.getLast?_append_of_ne_nil _ hfl]
        exact flatten_getLast_zero Bs hBs hfl
      have hlast : ¬ res.getLast? = some 0x3B := by
        rw [hlast0]
        simp
      rw [if_neg hlast] at hout
      have hout' : out = data.take 13 ++ (G ++ (Bs.flatten ++ [0x3B])) := by
        rw [← hout, hres]
        simp [List.append_assoc]
      rw [hout']
      unfold strip_metadata
      rw [gif_out_detect data G (Bs.flatten ++ [0x3B]) hlen13 hhdr]
      dsimp only
      rw [gif_second_pass_main data G Bs hG hGlen hlen13 hhdr hBs]
      dsimp only
      rw [Nat.sub_self]

/-- Stripping is idempotent for the GIF codec: for every byte buffer
dispatched to the GIF codec on which `strip_metadata` succeeds, applying
`strip_metadata` again to the returned data succeeds, returns the same
bytes, and removes zero additional bytes. -/
theorem gif_strip_metadata_idempotent (data : List Nat) (r₁ : StripResult)
    (h1 : strip_metadata data = .ok r₁)
    (hfmt : detect_format data = some .Gif) :
    strip_metadata r₁.data = .ok ⟨r₁.data, 0⟩ := by
  unfold strip_metadata at h1
  rw [hfmt] at h1
  dsimp only at h1
  cases hstrip : gif.strip data with
  | error e => rw [hstrip] at h1; cases h1
  | ok out =>
    rw [hstrip] at h1
    dsimp only at h1
    cases h1
    dsimp only
    unfold gif.strip at hstrip
    split_ifs at hstrip with hlen13 hhdr hgct hg
    · split at hstrip
      · cases hstrip
      · rename_i res hloop
        injection hstrip with hout
        rw [bslice_zero_take] at hloop
        exact gif_idem_final data (bslice data 13 (13 + gif.gct_size data)) out res
          (if_pos hg).symm
          (by
            rw [bslice_length data 13 (13 + gif.gct_size data) ?_ (by omega)]
            · omega
            · have hb : ¬ data.length < 13 + gif.gct_size data := fun hl => hgct ⟨hg, hl⟩
              omega)
          (by omega) hhdr hloop hout
    · split at hstrip
      · cases hstrip
      · rename_i res hloop
        injection hstrip with hout
        rw [bslice_zero_take] at hloop
        exact gif_idem_final data [] out res
          (if_neg hg).symm
          (by simp [gif.gct_size, hg])
          (by omega) hhdr hloop hout

/-! ### C8: the amended idempotence claim -/

/-- C8 (amended): stripping is idempotent for the PNG, GIF and WebP
codecs — for every byte buffer on which `strip_metadata` succeeds with
the detected format PNG, GIF or WebP, a second application succeeds,
returns the same bytes, and removes zero additional bytes.  For the
remaining codecs idempotence fails: on the TIFF input `tiffCex` a second
application removes one more byte (the counterexample), and on the JPEG
input `jpegCex` the first application returns the 4-byte buffer
`FF D8 FF D9`, which the second application rejects outright because it
is shorter than the 12 bytes format detection requires. -/
theorem C8_strip_idempotent_amended (data : List Nat)
    (hb : ∀ b ∈ data, b < 256) (r₁ : StripResult)
    (h1 : strip_metadata data = .ok r₁) :
    ((detect_format data = some .Png ∨ detect_format data = some .Gif ∨
        detect_format data = some .WebP) →
      strip_metadata r₁.data = .ok ⟨r₁.data, 0⟩) ∧
    strip_metadata jpegCex = .ok ⟨[0xFF, 0xD8, 0xFF, 0xD9], 10⟩ ∧
    strip_metadata [0xFF, 0xD8, 0xFF, 0xD9] = .error "unsupported format" := by
  refine ⟨?_, by decide, by decide⟩
  intro hfmt
  rcases hfmt with hfmt | hfmt | hfmt
  · exact png_strip_metadata_idempotent data hb r₁ h1 hfmt
  · exact gif_strip_metadata_idempotent data r₁ h1 hfmt
  · exact webp_strip_metadata_idempotent data hb r₁ h1 hfmt

/-- Witness for the amended C8 at a concrete PNG, GIF and WebP. -/
theorem C8_strip_idempotent_amended_witness :
    strip_metadata pngSampleOut = .ok ⟨pngSampleOut, 0⟩ ∧
    strip_metadata gifSample = .ok ⟨gifSample, 0⟩ ∧
    strip_metadata webpSampleOut = .ok ⟨webpSampleOut, 0⟩ :=
  ⟨(C8_strip_idempotent_amended pngSample (by decide) ⟨pngSampleOut, 15⟩ (by decide)).1
      (Or.inl (by decide)),
   (C8_strip_idempotent_amended gifSample (by decide) ⟨gifSample, 0⟩ (by decide)).1
      (Or.inr (Or.inl (by decide))),
   (C8_strip_idempotent_amended webpSample (by decide) ⟨webpSampleOut, 16⟩ (by decide)).1
      (Or.inr (Or.inr (by decide)))⟩
